import Mathlib

/-!
# greplin-exception-catcher: `src/javascript/errorcatcher.js`

A shallow embedding of the client-side exception catcher `g.errorCatcher`.

Conventions of the embedding

* JavaScript strings are Lean `String`s; index arithmetic (`indexOf`, `substr`,
  `substring`, `charAt`) is done on the character list `String.data`.  The only
  characters the algorithms inspect are `"`, `\`, `(`, `[`, `]`, letters and the
  newline, all of which are single UTF-16 code units, so positions agree.
* JavaScript numbers that occur here (timestamps, lengths, line numbers) are
  integers; they are embedded as `Int` (`Nat` for the report delay, which starts
  at `10` and is only ever doubled).
* A host operation that may raise (a property read on a foreign object, a
  `toString` call, ...) is an `Except String α`, the string being the message of
  the exception.
* `try { ... } catch` blocks are embedded by matching on these results.
-/

namespace ErrorCatcher

/-! ## Values -/

/-- What `getFunctionName` reads of a function object. -/
structure FunctionDesc where
  /-- reading `func.name` (the empty string when the property is absent) -/
  name : Except String String
  /-- calling `func.toString()` -/
  toStr : Except String String

/-- What `stringify` reads of a non-null object. -/
structure ObjectDesc where
  /-- evaluating `thing instanceof Date` -/
  instanceofDate : Except String Bool
  /-- calling `thing.toString()` -/
  toStr : Except String String
  /-- reading `thing.length`: `some n` when `typeof thing.length == 'number'` -/
  length : Except String (Option Int)

/-- Host-defined results of `typeof` outside the ECMAScript list. -/
inductive HostType
  | unknown
  | xml
  | date
  deriving DecidableEq, Repr

/-- The name `typeof` gives for a host-defined type. -/
def HostType.typeName : HostType → String
  | .unknown => "unknown"
  | .xml => "xml"
  | .date => "date"

/-- JavaScript values, as far as `stringify` distinguishes them. -/
inductive JsVal
  | undefined
  | null
  | number (n : Int)
  | boolean (b : Bool)
  | string (s : String)
  | object (o : ObjectDesc)
  | function (f : FunctionDesc)
  | hostValue (t : HostType)

/-- The operator `typeof thing`. -/
def typeOf : JsVal → String
  | .undefined => "undefined"
  | .null => "object"
  | .number _ => "number"
  | .boolean _ => "boolean"
  | .string _ => "string"
  | .object _ => "object"
  | .function _ => "function"
  | .hostValue t => t.typeName

/-- The predicate "array-like object value": a non-null object that is not a
`Date` and whose `length` is a number. -/
def isArrayLike : JsVal → Option Int
  | .object o =>
    match o.instanceofDate, o.length with
    | .ok false, .ok (some n) => some n
    | _, _ => none
  | _ => none

/-! ## Redaction of strings -/

/-- Source: `g.errorCatcher.redactString`. -/
def redactString (_str : String) : String := "[string redacted]"

/-- Source: `g.errorCatcher.shortenString`.  The length and the cut are counted
in characters of `String.data`; the source counts UTF-16 code units, which is
the same for text without characters above U+FFFF. -/
def shortenString (string : String) (maxLength : Nat) : String :=
  if string.data.length > maxLength then
    String.mk (string.data.take maxLength) ++ "..."
  else string

/-! ## Function names -/

/-- The regular expression `/function ([^\(]+)/` applied with `exec`: the first
capture group of the leftmost match, if any. -/
def functionNameMatch : List Char → Option (List Char)
  | [] => none
  | c :: cs =>
    if "function ".data.isPrefixOf (c :: cs) then
      let cap := ((c :: cs).drop 9).takeWhile (fun x => x != '(')
      if cap.isEmpty then functionNameMatch cs else some cap
    else functionNameMatch cs

/-- Source: `g.errorCatcher.getFunctionName`.  `nameInPrototype` is the host
test `'name' in Function.prototype`. -/
def getFunctionName (nameInPrototype : Bool) (func : FunctionDesc) : String :=
  let viaSource : String :=
    match func.toStr with
    | .error _ => "[inaccessible function]"
    | .ok funcStr =>
      match functionNameMatch funcStr.data with
      | some m => String.mk m
      | none => "[anonymous function: " ++ shortenString funcStr 90 ++ "]"
  if nameInPrototype then
    match func.name with
    | .error _ => "[inaccessible function]"
    | .ok n => if n ≠ "" then n else viaSource
  else viaSource

/-! ## `stringify` -/

/-- One character admitted by the class `[a-z ]` under the flag `i`. -/
def isTagChar (c : Char) : Bool :=
  ('a' ≤ c && c ≤ 'z') || ('A' ≤ c && c ≤ 'Z') || c == ' '

/-- The test `/^\[[a-z ]*\]$/i.test(s)`. -/
def bracketTag (s : List Char) : Bool :=
  match s with
  | '[' :: rest =>
    match rest.reverse with
    | ']' :: midRev => midRev.all isTagChar
    | _ => false
  | _ => false

/-- The `try` block of `stringify`, entered after `string = '[' + type + '?]'`:
the value of `string` when the block is left, and whether it was left by an
exception. -/
def stringifySwitch (nameInPrototype : Bool) (thing : JsVal) (string : String) :
    String × Bool :=
  match thing with
  | .undefined => ("undefined", false)
  | .number n => (toString n, false)
  | .boolean b => (toString b, false)
  | .null => ("null", false)
  | .object o =>
    match o.instanceofDate with
    | .error _ => (string, true)
    | .ok true =>
      match o.toStr with
      | .error _ => (string, true)
      | .ok s => ("new Date(\"" ++ s ++ "\")", false)
    | .ok false =>
      match o.toStr with
      | .error _ => (string, true)
      | .ok toStringValue =>
        if bracketTag toStringValue.data then (toStringValue, false)
        else
          match o.length with
          | .error _ => (string, true)
          | .ok (some n) => ("[arraylike object, length = " ++ toString n ++ "]", false)
          | .ok none => ("[object]", false)
  | .string s => ("\"" ++ redactString s ++ "\"", false)
  | .function f => ("/* function */ " ++ getFunctionName nameInPrototype f, false)
  | .hostValue t => ("[" ++ t.typeName ++ "???]", false)

/-- Source: `g.errorCatcher.stringify`.  `typeof` cannot raise, so the initial
value `'[???]'` of `string` is always overwritten by `'[' + type + '?]'`. -/
def stringify (nameInPrototype : Bool) (thing : JsVal) : String :=
  (stringifySwitch nameInPrototype thing ("[" ++ typeOf thing ++ "?]")).1

/-- Whether the `try` block of `stringify` was left by an exception. -/
def stringifyFailed (nameInPrototype : Bool) (thing : JsVal) : Bool :=
  (stringifySwitch nameInPrototype thing ("[" ++ typeOf thing ++ "?]")).2

/-! ## The stack walker -/

/-- `strings.join(sep)` on an array of strings. -/
def joinWith (sep : String) : List String → String
  | [] => ""
  | [s] => s
  | s :: t :: rest => s ++ sep ++ joinWith sep (t :: rest)

/-- A function object as the stack walker sees it; callers are functions of
the same finite heap of `n` function objects. -/
structure Frame (n : Nat) where
  desc : FunctionDesc
  /-- reading `func.arguments`: raises, is `null`, or is the argument list -/
  arguments : Except String (Option (List JsVal))
  /-- reading `func.caller`: raises, is `null`, or is a function -/
  caller : Except String (Option (Fin n))

/-- A finite heap of function objects linked by their `caller` property. -/
structure CallGraph where
  size : Nat
  frame : Fin size → Frame size

/-- Source: `g.errorCatcher.getFunctionArgumentsString`. -/
def getFunctionArgumentsString (nameInPrototype : Bool) {n : Nat} (func : Frame n) : String :=
  let argsStrings : List String :=
    match func.arguments with
    | .error _ => ["...?"]
    | .ok none => []
    | .ok (some args) => args.map (stringify nameInPrototype)
  "(" ++ joinWith "," argsStrings ++ ")"

/-- The text one iteration of the walker appends for the frame `func`. -/
def frameLine (nameInPrototype : Bool) (g : CallGraph) (func : Fin g.size) : String :=
  getFunctionName nameInPrototype (g.frame func).desc ++
    getFunctionArgumentsString nameInPrototype (g.frame func) ++ "\n"

/-- The `do ... while (func)` loop of `getStacktrace`, with the loop variables
`func`, `used`, `length` and `stacktrace`.  `none` when the fuel runs out. -/
def getStacktraceLoop (nameInPrototype : Bool) (g : CallGraph) :
    Nat → Fin g.size → List (Fin g.size) → Nat → String → Option String
  | 0, _, _, _, _ => none
  | fuel + 1, func, used, length, stacktrace =>
    let stacktrace := stacktrace ++ frameLine nameInPrototype g func
    let used := used ++ [func]
    match (g.frame func).caller with
    | .error message => some (stacktrace ++ ("(???" ++ message ++ ")\n"))
    | .ok none => some (if length > 50 then stacktrace ++ "(...)\n" else stacktrace)
    | .ok (some next) =>
      if used.any (fun u => u == next) then
        some (stacktrace ++
          (getFunctionName nameInPrototype (g.frame next).desc ++ "(???)\n(...)\n"))
      else
        getStacktraceLoop nameInPrototype g fuel next used length
          (if length > 50 then stacktrace ++ "(...)\n" else stacktrace)

/-- Source: `g.errorCatcher.getStacktrace`, called with a top function.  Every
iteration adds a new function of the heap to `used`, so `g.size + 1` iterations
are never exceeded. -/
def getStacktrace (nameInPrototype : Bool) (g : CallGraph) (opt_topFunction : Fin g.size) :
    Option String :=
  getStacktraceLoop nameInPrototype g (g.size + 1) opt_topFunction [] 0 ""

/-- Concatenation of a list of strings, in order. -/
def concatAll : List String → String
  | [] => ""
  | s :: rest => s ++ concatAll rest

/-- A caller chain `f1 -> f2 -> ... -> fn`: every `caller` is readable, each
function's caller is the next one, and the last has none. -/
def IsCallerChain (g : CallGraph) : List (Fin g.size) → Prop
  | [] => False
  | [f] => (g.frame f).caller = .ok none
  | f :: f' :: rest => (g.frame f).caller = .ok (some f') ∧ IsCallerChain g (f' :: rest)

/-! ## Redaction of string literals in Firefox stack traces -/

/-- Search of `c` in a list whose first element has position `pos`. -/
def indexOfAux (c : Char) : List Char → Nat → Option Nat
  | [], _ => none
  | x :: xs, pos => if x == c then some pos else indexOfAux c xs (pos + 1)

/-- The method `s.indexOf(c, fromIndex)`; `none` stands for `-1`. -/
def indexOf (s : List Char) (c : Char) (fromIndex : Nat) : Option Nat :=
  indexOfAux c (s.drop fromIndex) fromIndex

/-- The method `s.substr(start, length)`. -/
def substr (s : List Char) (start length : Nat) : List Char := (s.drop start).take length

/-- The method `s.substr(start)`. -/
def substrFrom (s : List Char) (start : Nat) : List Char := s.drop start

/-- The method `s.substring(a, b)`, which swaps its arguments when `a > b`. -/
def substring (s : List Char) (a b : Nat) : List Char :=
  (s.take (max a b)).drop (min a b)

/-- The method `s.split('\n')`. -/
def splitLines : List Char → List (List Char)
  | [] => [[]]
  | c :: cs =>
    if c == '\n' then [] :: splitLines cs
    else
      match splitLines cs with
      | l :: ls => (c :: l) :: ls
      | [] => [[c]]

/-- The method `lines.join('\n')`. -/
def joinLines : List (List Char) → List Char
  | [] => []
  | [l] => l
  | l :: l' :: ls => l ++ '\n' :: joinLines (l' :: ls)

/-- The first `do ... while (index != -1)` loop: collects quote positions,
searching from `index + 1`.  `none` when the fuel runs out. -/
def quoteScan (stacktraceLine : List Char) : Nat → Nat → List Nat → Option (List Nat)
  | 0, _, _ => none
  | fuel + 1, index, quoteLocations =>
    match indexOf stacktraceLine '"' (index + 1) with
    | some i => quoteScan stacktraceLine fuel i (quoteLocations ++ [i])
    | none => some quoteLocations

/-- The loop `while (index--)` of the filter callback: counts the backslashes
right before position `index`. -/
def backslashCount (stacktraceLine : List Char) : Nat → Nat → Nat
  | 0, count => count
  | index + 1, count =>
    if stacktraceLine[index]? != some '\\' then count
    else backslashCount stacktraceLine index (count + 1)

/-- The filter callback: the quote at `quoteLocation` is kept. -/
def quoteUnescaped (stacktraceLine : List Char) (quoteLocation : Nat) : Bool :=
  backslashCount stacktraceLine quoteLocation 0 % 2 == 0

/-- The body of the `for` loop at index `i`. -/
def replaceStep (quoteLocations : List Nat) (i : Nat) (stacktraceLine : List Char) :
    List Char :=
  substr stacktraceLine 0 (quoteLocations.getD (i - 1) 0 + 1) ++
    (redactString (String.mk (substring stacktraceLine
      (quoteLocations.getD (i - 1) 0 + 1) (quoteLocations.getD i 0)))).data ++
    substrFrom stacktraceLine (quoteLocations.getD i 0)

/-- The loop `for (var i = ...; i > 0; i -= 2)`, entered with the value `i`. -/
def replaceLoop (quoteLocations : List Nat) : Nat → List Char → List Char
  | 0, stacktraceLine => stacktraceLine
  | 1, stacktraceLine => replaceStep quoteLocations 1 stacktraceLine
  | i + 2, stacktraceLine =>
    replaceLoop quoteLocations i (replaceStep quoteLocations (i + 2) stacktraceLine)

/-- The callback given to `map`: redaction of one line. -/
def redactLine (stacktraceLine : List Char) : Option (List Char) :=
  match quoteScan stacktraceLine (stacktraceLine.length + 1) 0 [] with
  | none => none
  | some found =>
    let kept := found.filter (quoteUnescaped stacktraceLine)
    let quoteLocations :=
      if kept.length % 2 == 1 then kept ++ [stacktraceLine.length] else kept
    some (replaceLoop quoteLocations (quoteLocations.length - 1) stacktraceLine)

/-- The method `lines.map(redactLine)`, failing when one line fails. -/
def redactLines : List (List Char) → Option (List (List Char))
  | [] => some []
  | l :: ls =>
    match redactLine l, redactLines ls with
    | some r, some rs => some (r :: rs)
    | _, _ => none

/-- Source: `g.errorCatcher.redactFirefoxStacktraceStrings`. -/
def redactFirefoxStacktraceStrings (stacktraceStr : String) : Option String :=
  if !stacktraceStr.data.contains '"' then some stacktraceStr
  else (redactLines (splitLines stacktraceStr.data)).map (fun ls => String.mk (joinLines ls))

/-! ### The reference procedure of the specification -/

/-- Number of consecutive backslashes at the end of the reversed prefix. -/
def refTrailingBackslashes : List Char → Nat
  | '\\' :: rest => refTrailingBackslashes rest + 1
  | _ => 0

/-- Positions of the double quotes of a line that are not preceded by an odd
number of consecutive backslashes; `before` is the reversed text already read
and `pos` its length. -/
def refQuotePositions : List Char → List Char → Nat → List Nat
  | [], _, _ => []
  | c :: cs, before, pos =>
    if c == '"' && refTrailingBackslashes before % 2 == 0 then
      pos :: refQuotePositions cs (c :: before) (pos + 1)
    else refQuotePositions cs (c :: before) (pos + 1)

/-- Pairing left to right; an unpaired last quote is paired with `eol`. -/
def refPairs (eol : Nat) : List Nat → List (Nat × Nat)
  | [] => []
  | [a] => [(a, eol)]
  | a :: b :: rest => (a, b) :: refPairs eol rest

/-- Whether position `p` lies strictly between the two ends of some pair. -/
def refInside (pairs : List (Nat × Nat)) (p : Nat) : Bool :=
  pairs.any (fun ab => ab.1 < p && p < ab.2)

/-- Rewrites the line: characters strictly inside a pair are dropped, the
marker is written right after each opening quote, all else is kept in order. -/
def refRewrite (pairs : List (Nat × Nat)) : List Char → Nat → List Char
  | [], _ => []
  | c :: cs, pos =>
    if refInside pairs pos then refRewrite pairs cs (pos + 1)
    else if pairs.any (fun ab => ab.1 == pos) then
      c :: ("[string redacted]".data ++ refRewrite pairs cs (pos + 1))
    else c :: refRewrite pairs cs (pos + 1)

/-- The reference procedure on one line. -/
def refRedactLine (line : List Char) : List Char :=
  refRewrite (refPairs line.length (refQuotePositions line [] 0)) line 0

/-- The reference procedure on a stack text, line by line. -/
def refRedactStacktrace (stacktraceStr : String) : String :=
  String.mk (joinLines ((splitLines stacktraceStr.data).map refRedactLine))

/-! ## Error objects, reports and the rate limiter -/

/-- A line number: a number (from `lineNumber`, `line` or the global hook) or a
string (a capture group of a regular expression). -/
inductive LineVal
  | num (n : Int)
  | str (s : String)

/-- The conversion of a line number to a string by `+`. -/
def LineVal.toStr : LineVal → String
  | .num n => toString n
  | .str s => s

/-- The object `errorObject` built by `handleCatchException` and by the global
hook; an absent property is `none`. -/
structure ErrorObject where
  context : Option String
  name : Option String
  stacktrace : Option String
  message : Option String
  number : Option Int
  line : Option LineVal
  character : Option String
  url : Option String

/-- The record `errorObj` handed to the report handler. -/
structure ErrorReport where
  msg : String
  line : String
  trace : String
  ts : Int
  name : String

/-- The mutable fields of `g.errorCatcher`, and the calls made so far to
`g.errorCatcher.reportHandler_` (oldest first). -/
structure CatcherState where
  lastError_ : Int
  errorDelay_ : Nat
  lastDomWrapperError_ : Option ErrorObject
  handed : List ErrorReport

/-- The state when the script has been loaded. -/
def CatcherState.initial : CatcherState :=
  { lastError_ := 0, errorDelay_ := 10, lastDomWrapperError_ := none, handed := [] }

/-- An object for which `instanceof window.Error` holds; an absent property is
`none`. -/
structure ErrorInstance where
  name : Option String
  message : Option String
  stacktrace : Option String
  stack : Option String
  number : Option Int
  lineNumber : Option LineVal
  line : Option LineVal

/-- A thrown value: an `Error` instance or anything else. -/
inductive Thrown
  | error (e : ErrorInstance)
  | value (v : JsVal)

/-- What the code reads of its host and of its configuration. -/
structure Env where
  /-- `navigator.userAgent` -/
  userAgent : String
  /-- `location.href` -/
  href : String
  /-- `'name' in Function.prototype` -/
  nameInFunctionPrototype : Bool
  /-- whether `window.onerror` is set -/
  windowOnerror : Bool
  /-- the configured `g.errorCatcher.redactQueryStrings_` -/
  redactQueryStrings_ : String → String
  /-- the host constructor `new Error(value)` -/
  newError : JsVal → ErrorInstance
  /-- the `TypeError` the host raises for a method call on `undefined` -/
  typeErrorOfUndefined : ErrorInstance

/-- The expression `a || b` on optional strings: `undefined` and `''` are falsy. -/
def jsOr (a b : Option String) : Option String :=
  match a with
  | some s => if s ≠ "" then some s else b
  | none => b

/-- The expression `a || ''`. -/
def orEmpty (a : Option String) : String :=
  (jsOr a (some "")).getD ""

/-- The conversion of an optional string by `+`. -/
def concatText : Option String → String
  | some s => s
  | none => "undefined"

/-- The conversion of `errorObject.line` by `+`. -/
def lineText : Option LineVal → String
  | some v => v.toStr
  | none => "undefined"

/-- The record built by `reportException`; `now` is the second reading of the
clock. -/
def buildReport (env : Env) (now : Int) (errorObject : ErrorObject) : ErrorReport :=
  { msg := env.redactQueryStrings_ (orEmpty errorObject.message)
    line := lineText errorObject.line ++
      (match errorObject.character with
       | some character => ":" ++ character
       | none => "")
    trace := "Type: " ++ concatText errorObject.name ++ "\nUser-agent: " ++ env.userAgent ++
      "\nURL: " ++ env.redactQueryStrings_ env.href ++ "\n\n" ++
      env.redactQueryStrings_ (orEmpty errorObject.stacktrace)
    ts := Int.fdiv now 1000
    name :=
      if env.redactQueryStrings_ (orEmpty errorObject.context) ≠ "" then
        env.redactQueryStrings_ (orEmpty errorObject.context)
      else "unidentified JS thread" }

/-- Source: `g.errorCatcher.reportException`; `d` and `now` are the two
readings of the clock. -/
def reportException (env : Env) (d now : Int) (st : CatcherState)
    (errorObject : ErrorObject) : CatcherState :=
  if d - st.lastError_ < (st.errorDelay_ : Int) then st
  else
    { st with
      lastError_ := d
      errorDelay_ := st.errorDelay_ * 2
      handed := st.handed ++ [buildReport env now errorObject] }

/-! ## Regular expressions of `handleCatchException` -/

/-- A test `/pat/.test(s)` for a literal pattern. -/
def containsSub (pat : List Char) : List Char → Bool
  | [] => pat.isEmpty
  | c :: cs => pat.isPrefixOf (c :: cs) || containsSub pat cs

/-- The leftmost position at which the matcher `m` succeeds. -/
def searchFirst {α : Type} (m : List Char → Option α) : List Char → Option α
  | [] => m []
  | c :: cs =>
    match m (c :: cs) with
    | some r => some r
    | none => searchFirst m cs

/-- The remainder of `s` after the literal `pat`. -/
def afterLiteral (pat : List Char) (s : List Char) : Option (List Char) :=
  if pat.isPrefixOf s then some (s.drop pat.length) else none

/-- The group `(\d+)` at the head of `s`, and the remainder. -/
def digitGroup (s : List Char) : Option (List Char × List Char) :=
  if (s.takeWhile Char.isDigit).isEmpty then none
  else some (s.takeWhile Char.isDigit, s.dropWhile Char.isDigit)

/-- The pattern `\:(\d+)\:(\d+)\)(\n|$)` at the head of `s`. -/
def chromeLineAt (s : List Char) : Option (String × String) :=
  match afterLiteral [':'] s with
  | none => none
  | some r =>
    match digitGroup r with
    | none => none
    | some (d1, r1) =>
      match afterLiteral [':'] r1 with
      | none => none
      | some r2 =>
        match digitGroup r2 with
        | none => none
        | some (d2, r3) =>
          match r3 with
          | [')'] => some (String.mk d1, String.mk d2)
          | ')' :: '\n' :: _ => some (String.mk d1, String.mk d2)
          | _ => none

/-- The pattern `Error thrown at line (\d+), column (\d+)` at the head of `s`. -/
def operaLineColumnAt (s : List Char) : Option (String × String) :=
  match afterLiteral "Error thrown at line ".data s with
  | none => none
  | some r =>
    match digitGroup r with
    | none => none
    | some (d1, r1) =>
      match afterLiteral ", column ".data r1 with
      | none => none
      | some r2 =>
        match digitGroup r2 with
        | none => none
        | some (d2, _) => some (String.mk d1, String.mk d2)

/-- The pattern `Error thrown at line (\d+)` at the head of `s`. -/
def operaLineAt (s : List Char) : Option String :=
  match afterLiteral "Error thrown at line ".data s with
  | none => none
  | some r =>
    match digitGroup r with
    | none => none
    | some (d1, _) => some (String.mk d1)

/-! ## `handleCatchException` -/

/-- The lines of `handleCatchException` that fill `errorObject.line` and
`errorObject.character`; an exception when `caughtException.stack` is
`undefined` in the Chrome branch, where `.match` is called on it. -/
def extractLine (env : Env) (caughtException : ErrorInstance) (errorObject : ErrorObject) :
    Except ErrorInstance ErrorObject :=
  if caughtException.lineNumber.isSome then
    .ok { errorObject with line := caughtException.lineNumber }
  else if caughtException.line.isSome then
    .ok { errorObject with line := caughtException.line }
  else if containsSub "Chrome".data env.userAgent.data ||
      containsSub "Chromium".data env.userAgent.data then
    match caughtException.stack with
    | none => .error env.typeErrorOfUndefined
    | some stack =>
      match searchFirst chromeLineAt stack.data with
      | some (l, c) => .ok { errorObject with line := some (.str l), character := some c }
      | none => .ok errorObject
  else if containsSub "Opera".data env.userAgent.data then
    match searchFirst operaLineColumnAt (orEmpty errorObject.stacktrace).data with
    | some (l, c) => .ok { errorObject with line := some (.str l), character := some c }
    | none =>
      match searchFirst operaLineAt (orEmpty errorObject.stacktrace).data with
      | some l => .ok { errorObject with line := some (.str l) }
      | none => .ok errorObject
  else .ok errorObject

/-- The call `redactFirefoxStacktraceStrings(errorObject.stacktrace)`: the
value `undefined` has no quote and is returned as it is.  The outer `none` is
the fuel of the redaction running out. -/
def redactOptionalStacktrace : Option String → Option (Option String)
  | none => some none
  | some s => (redactFirefoxStacktraceStrings s).map some

/-- The object `caughtException` after the first statement. -/
def coerceToError (env : Env) : Thrown → ErrorInstance
  | .error e => e
  | .value v => env.newError v

/-- Source: `g.errorCatcher.handleCatchException`.  The result is the new state
and either a normal return or the exception that leaves the function. -/
def handleCatchException (env : Env) (d now : Int) (st : CatcherState)
    (caught : Thrown) (context : String) : Option (CatcherState × Except Thrown Unit) :=
  let caughtException := coerceToError env caught
  let stacktrace0 := jsOr caughtException.stacktrace caughtException.stack
  let redacted : Option (Option String) :=
    if containsSub "Gecko".data env.userAgent.data &&
        !containsSub "AppleWebKit".data env.userAgent.data then
      redactOptionalStacktrace stacktrace0
    else some stacktrace0
  match redacted with
  | none => none
  | some stacktrace =>
    let errorObject : ErrorObject :=
      { context := some context
        name := caughtException.name
        stacktrace := stacktrace
        message := caughtException.message
        number := caughtException.number
        line := none
        character := none
        url := none }
    match extractLine env caughtException errorObject with
    | .error typeError => some (st, .error (.error typeError))
    | .ok errorObject =>
      if env.windowOnerror then
        some ({ st with lastDomWrapperError_ := some errorObject },
          .error (.error caughtException))
      else
        some (reportException env d now st errorObject, .ok ())

/-- Source: `g.errorCatcher.handleInitialException`. -/
def handleInitialException (env : Env) (d now : Int) (st : CatcherState)
    (caughtException : Thrown) (fileName : String) :
    Option (CatcherState × Except Thrown Unit) :=
  handleCatchException env d now st caughtException ("Initial execution of " ++ fileName)

/-! ## The listener wrapper -/

/-- A DOM event, as far as the wrapper reads it. -/
structure EventObject where
  type : String
  target : JsVal
  currentTarget : JsVal

/-- A listener function: its description and the outcome of a call, given
`this`, the event and the further arguments. -/
structure ListenerFunction where
  desc : FunctionDesc
  call : JsVal → EventObject → List JsVal → Except Thrown JsVal

/-- One call of a listener function. -/
structure Invocation where
  thisArg : JsVal
  event : EventObject
  rest : List JsVal

/-- The object `{innerListener: listener, 'handleEvent': listenerWrapper_}`. -/
structure WrapperObject where
  innerListener : ListenerFunction

/-- Source: `g.errorCatcher.listenerWrapper_`, called on the wrapper object
`this` with the arguments `eventObject, rest...`.  The result is the new state,
the calls made of the inner listener, and the return value or the exception
leaving the wrapper. -/
def listenerWrapper_ (env : Env) (d now : Int) (st : CatcherState) (this : WrapperObject)
    (eventObject : EventObject) (rest : List JsVal) :
    Option (CatcherState × List Invocation × Except Thrown JsVal) :=
  let calls : List Invocation :=
    [{ thisArg := eventObject.target, event := eventObject, rest := rest }]
  match this.innerListener.call eventObject.target eventObject rest with
  | .ok value => some (st, calls, .ok value)
  | .error exception =>
    match handleCatchException env d now st exception
        (eventObject.type ++ " listener " ++
          stringify env.nameInFunctionPrototype (.function this.innerListener.desc) ++ " on " ++
          stringify env.nameInFunctionPrototype eventObject.currentTarget) with
    | none => none
    | some (st', .ok ()) => some (st', calls, .ok .undefined)
    | some (st', .error thrown) => some (st', calls, .error thrown)

/-- Host model: the call the host makes of a function registered as a listener,
with `this` the event's `currentTarget` and the event as only argument. -/
def hostCallsListener (listener : ListenerFunction) (eventObject : EventObject) :
    List Invocation × Except Thrown JsVal :=
  ([{ thisArg := eventObject.currentTarget, event := eventObject, rest := [] }],
    listener.call eventObject.currentTarget eventObject [])

/-! ## The wrapped `addEventListener` and `removeEventListener` -/

/-- The identity of a value passed as listener: a function or another object. -/
inductive ListenerRef
  | func (f : Nat)
  | object (o : Nat)
  deriving DecidableEq, Repr

/-- One registration of the underlying event target. -/
structure Registration where
  eventType : String
  listener : ListenerRef
  useCapture : Bool
  deriving DecidableEq, Repr

/-- The registrations of the event target `this`, the property
`eventsWrappedListener` of every function object, whether a property can be
added to a function object (`Object.isExtensible`), and the next fresh object. -/
structure DomState where
  registrations : List Registration
  wrappedProperty : Nat → Option Nat
  extensible : Nat → Bool
  nextObject : Nat

/-- Host model: the native `addEventListener` ignores a registration identical
in type, listener and capture flag. -/
def originalAddEventListener (regs : List Registration) (r : Registration) :
    List Registration :=
  if r ∈ regs then regs else regs ++ [r]

/-- Host model: the native `addEventListener` called with a listener value that
may be `undefined` (`none`), in which case nothing is registered. -/
def originalAddEventListenerValue (regs : List Registration) (eventType : String)
    (listener : Option ListenerRef) (useCapture : Bool) : List Registration :=
  match listener with
  | none => regs
  | some l => originalAddEventListener regs ⟨eventType, l, useCapture⟩

/-- Host model: the native `removeEventListener` deletes the registration. -/
def originalRemoveEventListener (regs : List Registration) (r : Registration) :
    List Registration :=
  regs.filter (fun x => x != r)

/-- The statement `listener[eventsWrappedProperty] = listener[eventsWrappedProperty] || {...}`
on the function `f`: the property map and the next fresh object afterwards.
When the property is set nothing is created.  Otherwise the object literal is
created, and the write takes effect only on an extensible function: the script
is not in strict mode, so on a non-extensible function the write is ignored
without an exception. -/
def assignWrappedProperty (s : DomState) (f : Nat) : (Nat → Option Nat) × Nat :=
  match s.wrappedProperty f with
  | some _ => (s.wrappedProperty, s.nextObject)
  | none =>
    if s.extensible f then
      (fun x => if x = f then some s.nextObject else s.wrappedProperty x, s.nextObject + 1)
    else (s.wrappedProperty, s.nextObject + 1)

/-- Source: the function assigned to `object.addEventListener` in
`wrapDOMEventsHelper`.  The last call passes the value that
`listener[eventsWrappedProperty]` has after the assignment. -/
def addEventListener (s : DomState) (eventType : String) (listener : ListenerRef)
    (useCapture : Bool) : DomState :=
  let regs := originalRemoveEventListener s.registrations ⟨eventType, listener, useCapture⟩
  match listener with
  | .object _ =>
    { s with registrations := originalAddEventListener regs ⟨eventType, listener, useCapture⟩ }
  | .func f =>
    { registrations :=
        originalAddEventListenerValue regs eventType
          (((assignWrappedProperty s f).1 f).map ListenerRef.object) useCapture
      wrappedProperty := (assignWrappedProperty s f).1
      extensible := s.extensible
      nextObject := (assignWrappedProperty s f).2 }

/-- Source: the function assigned to `object.removeEventListener` in
`wrapDOMEventsHelper`. -/
def removeEventListener (s : DomState) (eventType : String) (listener : ListenerRef)
    (useCapture : Bool) : DomState :=
  let regs := originalRemoveEventListener s.registrations ⟨eventType, listener, useCapture⟩
  match listener with
  | .object _ => { s with registrations := regs }
  | .func f =>
    match s.wrappedProperty f with
    | some w =>
      { s with registrations :=
          originalRemoveEventListener regs ⟨eventType, .object w, useCapture⟩ }
    | none => { s with registrations := regs }

/-! ## Concrete inputs used below -/

/-- The `arguments` object of a call with two arguments. -/
def argumentsObject : JsVal :=
  .object { instanceofDate := .ok false, toStr := .ok "[object Arguments]", length := .ok (some 2) }

/-- The array `[1, 2]`. -/
def arrayOneTwo : ObjectDesc :=
  { instanceofDate := .ok false, toStr := .ok "1,2", length := .ok (some 2) }

/-- A redaction function that replaces every text by a fixed one. -/
def redactAll (_s : String) : String := "[redacted]"

/-- A Chrome host without a global hook. -/
def chromeEnv : Env :=
  { userAgent := "Mozilla/5.0 AppleWebKit/535.1 (KHTML, like Gecko) Chrome/14.0 Safari/535.1"
    href := "http://example.com/?q=secret"
    nameInFunctionPrototype := true
    windowOnerror := false
    redactQueryStrings_ := redactAll
    newError := fun _ =>
      { name := some "Error", message := some "", stacktrace := none, stack := some "Error",
        number := none, lineNumber := none, line := none }
    typeErrorOfUndefined :=
      { name := some "TypeError", message := some "Cannot call method 'match' of undefined",
        stacktrace := none, stack := some "TypeError", number := none, lineNumber := none,
        line := none } }

/-- An error object with a message, a context and a stack. -/
def sampleErrorObject : ErrorObject :=
  { context := some "setTimeout(f, 10)", name := some "TypeError",
    stacktrace := some "f()@http://example.com/?q=secret:1", message := some "boom",
    number := none, line := some (.num 42), character := none, url := none }

/-- A button inside a form: the target of a click that bubbles. -/
def buttonElement : JsVal :=
  .object { instanceofDate := .ok false, toStr := .ok "[object HTMLButtonElement]",
            length := .ok none }

/-- The form on which the listener is registered. -/
def formElement : JsVal :=
  .object { instanceofDate := .ok false, toStr := .ok "[object HTMLFormElement]",
            length := .ok (some 1) }

/-- A click on the button, dispatched to a listener of the form. -/
def bubblingClick : EventObject :=
  { type := "click", target := buttonElement, currentTarget := formElement }

/-- The listener `function onClick() { return this; }`. -/
def returnThisListener : ListenerFunction :=
  { desc := { name := .ok "onClick", toStr := .ok "function onClick() \x7b return this; \x7d" }
    call := fun thisArg _ _ => .ok thisArg }

/-- An instance of a constructor whose prototype is
`Object.create(Error.prototype)`: no own property is set. -/
def bareErrorInstance : ErrorInstance :=
  { name := some "Error", message := some "", stacktrace := none, stack := none,
    number := none, lineNumber := none, line := none }

/-- Three functions `outer`, `middle`, `inner`, where `inner` was called by
`middle` and `middle` by `outer`, which has no caller. -/
def threeFrames : CallGraph :=
  { size := 3
    frame := fun i =>
      if i.val = 0 then
        { desc := { name := .ok "inner", toStr := .ok "function inner(a, b) \x7b \x7d" }
          arguments := .ok (some [.number 1, .string "secret"])
          caller := .ok (some 1) }
      else if i.val = 1 then
        { desc := { name := .ok "", toStr := .ok "function middle() \x7b inner(1, 2); \x7d" }
          arguments := .ok (some [])
          caller := .ok (some 2) }
      else
        { desc := { name := .ok "outer", toStr := .ok "function outer() \x7b middle(); \x7d" }
          arguments := .error "denied"
          caller := .ok none } }

/-- The function `inner` of `threeFrames`. -/
def innerFunction : Fin threeFrames.size := ⟨0, by decide⟩

/-- The function `middle` of `threeFrames`. -/
def middleFunction : Fin threeFrames.size := ⟨1, by decide⟩

/-- The function `outer` of `threeFrames`. -/
def outerFunction : Fin threeFrames.size := ⟨2, by decide⟩

/-- A target on which a function is registered unwrapped. -/
def rawRegistered : DomState :=
  { registrations := [⟨"click", .func 7, false⟩, ⟨"keyup", .func 7, false⟩]
    wrappedProperty := fun _ => none
    extensible := fun _ => true
    nextObject := 0 }

/-- The same target when the function objects have been made non-extensible
(`Object.preventExtensions`, `Object.freeze`) before they are passed as
listeners. -/
def frozenRegistered : DomState :=
  { rawRegistered with extensible := fun _ => false }

/-- A path `f1 -> f2 -> ... -> fk` of readable caller references whose last
function has the caller `target`. -/
def IsCallerCycle (g : CallGraph) : List (Fin g.size) → Fin g.size → Prop
  | [], _ => False
  | [f], target => (g.frame f).caller = .ok (some target)
  | f :: f' :: rest, target =>
    (g.frame f).caller = .ok (some f') ∧ IsCallerCycle g (f' :: rest) target

/-- Two functions `a` and `b` that call each other: `a` was called by `b` and
`b` by `a`. -/
def twoCycle : CallGraph :=
  { size := 2
    frame := fun i =>
      if i.val = 0 then
        { desc := { name := .ok "a", toStr := .ok "function a() \x7b b(); \x7d" }
          arguments := .ok (some [])
          caller := .ok (some 1) }
      else
        { desc := { name := .ok "b", toStr := .ok "function b() \x7b a(); \x7d" }
          arguments := .ok (some [])
          caller := .ok (some 0) } }

/-- The function `a` of `twoCycle`. -/
def cycleA : Fin twoCycle.size := ⟨0, by decide⟩

/-- The function `b` of `twoCycle`. -/
def cycleB : Fin twoCycle.size := ⟨1, by decide⟩

/-- A chain of 52 functions named `f`, each called by the next one; the last
has no caller. -/
def deepChain : CallGraph :=
  { size := 52
    frame := fun i =>
      { desc := { name := .ok "f", toStr := .ok "function f() \x7b \x7d" }
        arguments := .ok (some [])
        caller := if h : i.val + 1 < 52 then .ok (some ⟨i.val + 1, h⟩) else .ok none } }

/-- The first function of `deepChain`. -/
def deepTop : Fin deepChain.size := ⟨0, by decide⟩

/-! ## The global hook `window.onerror` -/

/-- Whether a line value is truthy: a number other than `0`, a non-empty
string. -/
def LineVal.truthy : LineVal → Bool
  | .num n => n != 0
  | .str s => s != ""

/-- The expression `a || b` on optional line values. -/
def jsOrLine (a b : Option LineVal) : Option LineVal :=
  match a with
  | some v => if v.truthy then some v else b
  | none => b

/-- The object `{}`. -/
def emptyErrorObject : ErrorObject :=
  { context := none, name := none, stacktrace := none, message := none, number := none,
    line := none, character := none, url := none }

/-- The statement that sets `errorObject.character`: `windowEvent` is `none`
when `window.event` is falsy, and holds `some n` when
`typeof window.event['errorCharacter'] == 'number'`. -/
def onerrorCharacter (windowEvent : Option (Option Int)) (character : Option String) :
    Option String :=
  match windowEvent with
  | some (some errorCharacter) =>
    match jsOr character none with
    | some c => some c
    | none => some (toString errorCharacter)
  | _ => character

/-- The statement that sets `errorObject.stacktrace` in the hook.  `hook` is the
hook function itself: `arguments.callee.caller` is its `caller` property, and
when that is `null` the expression `opt_topFunction || arguments.callee.caller`
inside `getStacktrace` is the hook.  The outer `none` is the fuel of the walker
running out. -/
def onerrorStacktrace (env : Env) (g : CallGraph) (hook : Fin g.size)
    (stacktrace : Option String) : Option (Option String) :=
  if (jsOr stacktrace none).isNone && containsSub "MSIE ".data env.userAgent.data then
    match (g.frame hook).caller with
    | .error message => some (some ("[error generating stacktrace: " ++ message ++ "]"))
    | .ok (some caller) => (getStacktrace env.nameInFunctionPrototype g caller).map some
    | .ok none => (getStacktrace env.nameInFunctionPrototype g hook).map some
  else some stacktrace

/-- The object `errorObject` that the hook passes to `reportException`. -/
def onerrorErrorObject (env : Env) (g : CallGraph) (hook : Fin g.size)
    (windowEvent : Option (Option Int)) (pending : Option ErrorObject)
    (errorMessage url : Option String) (lineNumber : Option LineVal) : Option ErrorObject :=
  let errorObject := pending.getD emptyErrorObject
  let errorObject :=
    { errorObject with
      message := jsOr errorObject.message errorMessage
      url := jsOr errorObject.url url
      line := jsOrLine errorObject.line lineNumber }
  let errorObject :=
    { errorObject with character := onerrorCharacter windowEvent errorObject.character }
  match onerrorStacktrace env g hook errorObject.stacktrace with
  | none => none
  | some stacktrace => some { errorObject with stacktrace := stacktrace }

/-- Source: the function assigned to `window.onerror`.  The result is the new
state and the way the hook is left. -/
def window_onerror (env : Env) (g : CallGraph) (hook : Fin g.size)
    (windowEvent : Option (Option Int)) (d now : Int) (st : CatcherState)
    (errorMessage url : Option String) (lineNumber : Option LineVal) :
    Option (CatcherState × Except Thrown Unit) :=
  match onerrorErrorObject env g hook windowEvent st.lastDomWrapperError_ errorMessage url
      lineNumber with
  | none => none
  | some errorObject =>
    some (reportException env d now { st with lastDomWrapperError_ := none } errorObject,
      .ok ())

/-- An Internet Explorer host with the global hook installed. -/
def ieEnv : Env :=
  { chromeEnv with
    userAgent := "Mozilla/4.0 (compatible; MSIE 8.0; Windows NT 6.1)"
    nameInFunctionPrototype := false
    windowOnerror := true }

/-- The record a wrapper left in the pending slot before it threw again. -/
def pendingRecord : ErrorObject :=
  { context := some "click listener", name := some "TypeError", stacktrace := none,
    message := some "boom", number := none, line := none, character := none, url := none }

/-- A state with a pending wrapper record. -/
def pendingState : CatcherState :=
  { CatcherState.initial with lastDomWrapperError_ := some pendingRecord }

/-- A pending record whose message is the empty string and whose line is the
number `0`: both properties are present and falsy. -/
def falsyPendingRecord : ErrorObject :=
  { pendingRecord with message := some "", line := some (.num 0) }

/-! ## A left-to-right description of the redaction of one line

The definitions of this section are not in the source: they describe the
result of `redactLine` by one pass over the line, and are related to the
embedding of the source by the theorems `quoteScan_eq`, `filteredQuoteLocations_eq`
and `redactLine_eq_walkLine` below. -/

/-- Positions of the characters `c` of a list whose first element has position
`pos`. -/
def positionsOf (c : Char) : List Char → Nat → List Nat
  | [], _ => []
  | x :: xs, pos =>
    if x == c then pos :: positionsOf c xs (pos + 1) else positionsOf c xs (pos + 1)

/-- The value of `quoteLocations` after the `filter` call in `redactLine`. -/
def filteredQuoteLocations (stacktraceLine : List Char) : Option (List Nat) :=
  (quoteScan stacktraceLine (stacktraceLine.length + 1) 0 []).map
    (fun found => found.filter (quoteUnescaped stacktraceLine))

/-- The marker written by `redactString`, as characters. -/
def markerChars : List Char := (redactString "").data

/-- The positions of a list of pairs, in order. -/
def flattenPairs : List (Nat × Nat) → List Nat
  | [] => []
  | (a, b) :: ps => a :: b :: flattenPairs ps

/-- The line rewritten pair by pair from the left: `l` is the part of the line
from position `off` on; for each pair the text up to and including its first
position is kept, the marker is written, and the text from its second position
on is treated in the same way. -/
def renderPairs : List (Nat × Nat) → List Char → Nat → List Char
  | [], l, _ => l
  | (a, b) :: ps, l, off =>
    l.take (a + 1 - off) ++ (markerChars ++ renderPairs ps (l.drop (b - off)) b)

/-- Pairs in increasing order from `off` on: each first position is before its
second one and not before the second position of the pair before. -/
def PairsOk : List (Nat × Nat) → Nat → Prop
  | [], _ => True
  | (a, b) :: ps, off => off ≤ a ∧ a < b ∧ PairsOk ps b

/-- The first position of a list, or `eol` when there is none. -/
def headOr (eol : Nat) : List Nat → Nat
  | [] => eol
  | b :: _ => b

/-- One pass over the rest of a line.  `inside` tells whether a quote has been
opened and not closed yet, `bs` is the number of consecutive backslashes right
before the current character.  Outside, every character is kept and the marker
is written after an opening quote; inside, characters are dropped up to the
closing quote, which is kept. -/
def walkFrom : Bool → Nat → List Char → List Char
  | _, _, [] => []
  | false, bs, c :: cs =>
    if c == '"' && bs % 2 == 0 then c :: (markerChars ++ walkFrom true 0 cs)
    else c :: walkFrom false (if c = '\\' then bs + 1 else 0) cs
  | true, bs, c :: cs =>
    if c == '"' && bs % 2 == 0 then c :: walkFrom false 0 cs
    else walkFrom true (if c = '\\' then bs + 1 else 0) cs

/-- One pass over a line: the first character is never taken for a quote. -/
def walkLine : List Char → List Char
  | [] => []
  | c :: cs => c :: walkFrom false (if c = '\\' then 1 else 0) cs

/-! ## Theorems -/

theorem orEmpty_eq_getD (a : Option String) : orEmpty a = a.getD "" := by
  cases a with
  | none => rfl
  | some s =>
    by_cases h : s = ""
    · subst h; rfl
    · simp [orEmpty, jsOr, h]

/-! ### Lemmas on the redaction of stack traces and on `handleCatchException` -/

theorem indexOfAux_bounds (c : Char) :
    ∀ (l : List Char) (pos i : Nat), indexOfAux c l pos = some i →
      pos ≤ i ∧ i < pos + l.length := by
  intro l
  induction l with
  | nil => intro pos i h; simp [indexOfAux] at h
  | cons x xs ih =>
    intro pos i h
    simp only [indexOfAux] at h
    by_cases hx : (x == c) = true
    · simp only [hx, if_true, Option.some.injEq] at h
      subst h
      simp
    · simp only [hx] at h
      have := ih (pos + 1) i h
      simp only [List.length_cons]
      omega

theorem indexOf_bounds (s : List Char) (c : Char) (fromIndex i : Nat)
    (h : indexOf s c fromIndex = some i) : fromIndex ≤ i ∧ i < s.length := by
  have hb := indexOfAux_bounds c (s.drop fromIndex) fromIndex i h
  simp only [List.length_drop] at hb
  omega

theorem quoteScan_total (line : List Char) :
    ∀ (fuel index : Nat) (acc : List Nat), line.length + 1 ≤ fuel + index →
      index ≤ line.length → ∃ r, quoteScan line fuel index acc = some r := by
  intro fuel
  induction fuel with
  | zero => intro index acc h1 h2; omega
  | succ k ih =>
    intro index acc h1 h2
    simp only [quoteScan]
    cases hi : indexOf line '"' (index + 1) with
    | none => exact ⟨acc, rfl⟩
    | some i =>
      have hb := indexOf_bounds line '"' (index + 1) i hi
      exact ih i (acc ++ [i]) (by omega) (by omega)

theorem redactLine_total (line : List Char) : ∃ r, redactLine line = some r := by
  obtain ⟨q, hq⟩ := quoteScan_total line (line.length + 1) 0 [] (by omega) (by omega)
  simp [redactLine, hq]

theorem redactLines_total : ∀ lines : List (List Char), ∃ r, redactLines lines = some r := by
  intro lines
  induction lines with
  | nil => exact ⟨[], rfl⟩
  | cons l ls ih =>
    obtain ⟨r, hr⟩ := redactLine_total l
    obtain ⟨rs, hrs⟩ := ih
    exact ⟨r :: rs, by simp [redactLines, hr, hrs]⟩

theorem redactFirefoxStacktraceStrings_total (stacktraceStr : String) :
    ∃ r, redactFirefoxStacktraceStrings stacktraceStr = some r := by
  unfold redactFirefoxStacktraceStrings
  by_cases h : (!stacktraceStr.data.contains '"') = true
  · exact ⟨stacktraceStr, by rw [if_pos h]⟩
  · obtain ⟨rs, hrs⟩ := redactLines_total (splitLines stacktraceStr.data)
    exact ⟨String.mk (joinLines rs), by rw [if_neg h, hrs]; rfl⟩

theorem redactOptionalStacktrace_total (stacktrace : Option String) :
    ∃ r, redactOptionalStacktrace stacktrace = some r := by
  cases stacktrace with
  | none => exact ⟨none, rfl⟩
  | some s =>
    obtain ⟨r, hr⟩ := redactFirefoxStacktraceStrings_total s
    exact ⟨some r, by simp [redactOptionalStacktrace, hr]⟩

theorem extractLine_ok (env : Env) (e : ErrorInstance) (errorObject : ErrorObject)
    (hguard : e.lineNumber.isSome = true ∨ e.line.isSome = true ∨ e.stack.isSome = true ∨
      (containsSub "Chrome".data env.userAgent.data ||
        containsSub "Chromium".data env.userAgent.data) = false) :
    ∃ eo, extractLine env e errorObject = .ok eo ∧ eo.context = errorObject.context := by
  unfold extractLine
  by_cases h1 : e.lineNumber.isSome = true
  · exact ⟨{ errorObject with line := e.lineNumber }, by rw [if_pos h1], rfl⟩
  by_cases h2 : e.line.isSome = true
  · exact ⟨{ errorObject with line := e.line }, by rw [if_neg h1, if_pos h2], rfl⟩
  by_cases h3 : (containsSub "Chrome".data env.userAgent.data ||
      containsSub "Chromium".data env.userAgent.data) = true
  · have hs : e.stack.isSome = true := by
      rcases hguard with h | h | h | h
      · exact absurd h h1
      · exact absurd h h2
      · exact h
      · rw [h3] at h; cases h
    obtain ⟨stack, hstack⟩ := Option.isSome_iff_exists.mp hs
    simp only [h1, h2, h3, hstack, if_true, if_false, Bool.false_eq_true]
    cases searchFirst chromeLineAt stack.data with
    | none => exact ⟨_, rfl, rfl⟩
    | some lc => exact ⟨_, rfl, rfl⟩
  · simp only [h1, h2, h3, if_false, Bool.false_eq_true]
    by_cases h4 : containsSub "Opera".data env.userAgent.data = true
    · simp only [h4, if_true]
      cases searchFirst operaLineColumnAt (orEmpty errorObject.stacktrace).data with
      | some lc => exact ⟨_, rfl, rfl⟩
      | none =>
        cases searchFirst operaLineAt (orEmpty errorObject.stacktrace).data with
        | some l => exact ⟨_, rfl, rfl⟩
        | none => exact ⟨_, rfl, rfl⟩
    · simp only [h4, if_false, Bool.false_eq_true]
      exact ⟨_, rfl, rfl⟩

/-- Outside the unguarded Chrome branch (the caught `Error` has a `lineNumber`,
a `line` or a `stack`, or the host is not Chrome), `handleCatchException`
throws the caught exception and fills the pending slot when `window.onerror`
is set, and otherwise reports a record with the given context and returns. -/
theorem handleCatchException_guarded (env : Env) (d now : Int) (st : CatcherState)
    (caught : Thrown) (context : String)
    (hguard : (coerceToError env caught).lineNumber.isSome = true ∨
      (coerceToError env caught).line.isSome = true ∨
      (coerceToError env caught).stack.isSome = true ∨
      (containsSub "Chrome".data env.userAgent.data ||
        containsSub "Chromium".data env.userAgent.data) = false) :
    ∃ eo : ErrorObject, eo.context = some context ∧
      (env.windowOnerror = true →
        handleCatchException env d now st caught context =
          some ({ st with lastDomWrapperError_ := some eo },
            .error (.error (coerceToError env caught)))) ∧
      (env.windowOnerror = false →
        handleCatchException env d now st caught context =
          some (reportException env d now st eo, .ok ())) := by
  unfold handleCatchException
  simp only []
  have hred : ∃ r, (if (containsSub "Gecko".data env.userAgent.data &&
        !containsSub "AppleWebKit".data env.userAgent.data) = true then
      redactOptionalStacktrace
        (jsOr (coerceToError env caught).stacktrace (coerceToError env caught).stack)
      else some (jsOr (coerceToError env caught).stacktrace (coerceToError env caught).stack)) =
        some r := by
    split
    · exact redactOptionalStacktrace_total _
    · exact ⟨_, rfl⟩
  obtain ⟨r, hr⟩ := hred
  rw [hr]
  simp only []
  obtain ⟨eo, heo, hctx⟩ := extractLine_ok env (coerceToError env caught)
    { context := some context, name := (coerceToError env caught).name, stacktrace := r,
      message := (coerceToError env caught).message,
      number := (coerceToError env caught).number, line := none, character := none,
      url := none } hguard
  rw [heo]
  refine ⟨eo, hctx, ?_, ?_⟩
  · intro h; simp [h]
  · intro h; simp [h]

/-- When the inner listener returns, `listenerWrapper_` leaves the state as it
is, has called the inner listener once with `this` bound to the event's
`target` and with the arguments it received, and returns its value. -/
theorem listenerWrapper__of_return (env : Env) (d now : Int) (st : CatcherState)
    (this : WrapperObject) (eventObject : EventObject) (rest : List JsVal) (value : JsVal)
    (hcall : this.innerListener.call eventObject.target eventObject rest = .ok value) :
    listenerWrapper_ env d now st this eventObject rest =
      some (st, [{ thisArg := eventObject.target, event := eventObject, rest := rest }],
        .ok value) := by
  simp [listenerWrapper_, hcall]

/-- C2: when `reportException` is not rate limited, it hands exactly one new
record to the report handler, whose `msg` is the redaction function applied to
the message (or to the empty string), whose `name` is the redaction function
applied to the context (or to the empty string), replaced by
`unidentified JS thread` when that is empty, and whose `trace` is the header
with the type, the user agent and the redacted page address, followed by the
redaction function applied to the stack text (or to the empty string). -/
theorem reportException_record_redacted (env : Env) (d now : Int) (st : CatcherState)
    (e : ErrorObject) (hrate : ¬ (d - st.lastError_ < (st.errorDelay_ : Int))) :
    ∃ r : ErrorReport,
      (reportException env d now st e).handed = st.handed ++ [r] ∧
      r.msg = env.redactQueryStrings_ (e.message.getD "") ∧
      r.name = (if env.redactQueryStrings_ (e.context.getD "") = "" then "unidentified JS thread"
        else env.redactQueryStrings_ (e.context.getD "")) ∧
      r.trace = "Type: " ++ concatText e.name ++ "\nUser-agent: " ++ env.userAgent ++
        "\nURL: " ++ env.redactQueryStrings_ env.href ++ "\n\n" ++
        env.redactQueryStrings_ (e.stacktrace.getD "") := by
  refine ⟨buildReport env now e, ?_, ?_, ?_, ?_⟩
  · simp [reportException, hrate]
  · simp [buildReport, orEmpty_eq_getD]
  · simp only [buildReport, orEmpty_eq_getD]
    by_cases h : env.redactQueryStrings_ (e.context.getD "") = "" <;> simp [h]
  · simp [buildReport, orEmpty_eq_getD]

theorem reportException_record_redacted_witness :
    ∃ r : ErrorReport,
      (reportException chromeEnv 1000 1000 CatcherState.initial sampleErrorObject).handed =
        CatcherState.initial.handed ++ [r] ∧
      r.msg = chromeEnv.redactQueryStrings_ (sampleErrorObject.message.getD "") ∧
      r.name = (if chromeEnv.redactQueryStrings_ (sampleErrorObject.context.getD "") = ""
        then "unidentified JS thread"
        else chromeEnv.redactQueryStrings_ (sampleErrorObject.context.getD "")) ∧
      r.trace = "Type: " ++ concatText sampleErrorObject.name ++ "\nUser-agent: " ++
        chromeEnv.userAgent ++ "\nURL: " ++ chromeEnv.redactQueryStrings_ chromeEnv.href ++
        "\n\n" ++ chromeEnv.redactQueryStrings_ (sampleErrorObject.stacktrace.getD "") :=
  reportException_record_redacted chromeEnv 1000 1000 CatcherState.initial sampleErrorObject
    (by decide)

/-- C4: `reportException` drops the record when `now - lastError_ < errorDelay_`,
leaving the state unchanged and the handler uncalled; otherwise it sets
`lastError_` to the current time, doubles `errorDelay_` and calls the handler
exactly once.  The delay is never reduced, and from delay 10 with the last
report at least 10 in the past, reports at `t`, `t + 1`, `t + 25` are sent,
dropped, sent, the delay becoming 20 and then 40. -/
theorem reportException_rate_limit (env : Env) (d now : Int) (st : CatcherState)
    (e : ErrorObject) :
    (d - st.lastError_ < (st.errorDelay_ : Int) → reportException env d now st e = st) ∧
    (¬ (d - st.lastError_ < (st.errorDelay_ : Int)) →
      (reportException env d now st e).lastError_ = d ∧
      (reportException env d now st e).errorDelay_ = 2 * st.errorDelay_ ∧
      (reportException env d now st e).handed = st.handed ++ [buildReport env now e]) ∧
    st.errorDelay_ ≤ (reportException env d now st e).errorDelay_ ∧
    (∀ (now2 now3 : Int) (e2 e3 : ErrorObject),
      st.errorDelay_ = 10 → 10 ≤ d - st.lastError_ →
      (reportException env d now st e).handed = st.handed ++ [buildReport env now e] ∧
      (reportException env d now st e).errorDelay_ = 20 ∧
      reportException env (d + 1) now2 (reportException env d now st e) e2 =
        reportException env d now st e ∧
      (reportException env (d + 25) now3
        (reportException env (d + 1) now2 (reportException env d now st e) e2) e3).handed =
        st.handed ++ [buildReport env now e] ++ [buildReport env now3 e3] ∧
      (reportException env (d + 25) now3
        (reportException env (d + 1) now2 (reportException env d now st e) e2) e3).errorDelay_ =
        40) := by
  refine ⟨?_, ?_, ?_, ?_⟩
  · intro h
    simp [reportException, h]
  · intro h
    simp [reportException, h, Nat.mul_comm]
  · by_cases h : d - st.lastError_ < (st.errorDelay_ : Int)
    · simp [reportException, h]
    · simp only [reportException, h, if_false]
      omega
  · intro now2 now3 e2 e3 hdelay hpast
    have h1 : ¬ (d - st.lastError_ < (st.errorDelay_ : Int)) := by
      rw [hdelay]; push_cast; omega
    have hs1 : reportException env d now st e =
        { st with lastError_ := d, errorDelay_ := st.errorDelay_ * 2,
                  handed := st.handed ++ [buildReport env now e] } := by
      simp [reportException, h1]
    have hs2 : reportException env (d + 1) now2 (reportException env d now st e) e2 =
        reportException env d now st e := by
      rw [hs1]
      simp [reportException, hdelay]
    rw [hs2]
    refine ⟨by rw [hs1], by rw [hs1]; simp [hdelay], rfl, ?_, ?_⟩
    · rw [hs1]
      simp [reportException, hdelay]
    · rw [hs1]
      simp [reportException, hdelay]

theorem reportException_rate_limit_witness :
    reportException chromeEnv 5 5 CatcherState.initial sampleErrorObject = CatcherState.initial ∧
    (reportException chromeEnv 1000 1000 CatcherState.initial sampleErrorObject).errorDelay_ =
      2 * CatcherState.initial.errorDelay_ ∧
    (reportException chromeEnv 1025 1025
      (reportException chromeEnv 1001 1001
        (reportException chromeEnv 1000 1000 CatcherState.initial sampleErrorObject)
        sampleErrorObject) sampleErrorObject).errorDelay_ = 40 :=
  ⟨(reportException_rate_limit chromeEnv 5 5 CatcherState.initial sampleErrorObject).1
      (by decide),
    ((reportException_rate_limit chromeEnv 1000 1000 CatcherState.initial sampleErrorObject).2.1
      (by decide)).2.1,
    ((reportException_rate_limit chromeEnv 1000 1000 CatcherState.initial
      sampleErrorObject).2.2.2 1001 1025 sampleErrorObject sampleErrorObject rfl
      (by decide)).2.2.2.2⟩

/-- C1: on the click whose `target` (the button) differs from its
`currentTarget` (the form), `listenerWrapper_` calls the inner listener once,
with the arguments it received, but with `this` bound to `target`; the listener
`function() { return this; }` so returns the button through the wrapper and the
form when the host calls it unwrapped. -/
theorem listenerWrapper_this_is_target :
    listenerWrapper_ chromeEnv 0 0 CatcherState.initial ⟨returnThisListener⟩ bubblingClick [] =
      some (CatcherState.initial,
        [{ thisArg := bubblingClick.target, event := bubblingClick, rest := [] }],
        .ok buttonElement) ∧
    hostCallsListener returnThisListener bubblingClick =
      ([{ thisArg := bubblingClick.currentTarget, event := bubblingClick, rest := [] }],
        .ok formElement) ∧
    stringify true buttonElement = "[object HTMLButtonElement]" ∧
    stringify true formElement = "[object HTMLFormElement]" ∧
    buttonElement ≠ formElement := by
  refine ⟨rfl, rfl, by decide, by decide, ?_⟩
  intro h
  have h2 := congrArg (stringify true) h
  revert h2
  decide

/-- C3: on the line `"abc"` the code misses the quote at position 0, pairs the
closing quote with the end of the line and leaves `abc` in the result, whereas
the reference procedure replaces `abc` by the marker. -/
theorem redactFirefoxStacktraceStrings_misses_leading_quote :
    redactFirefoxStacktraceStrings "\"abc\"" = some "\"abc\"[string redacted]" ∧
    refRedactStacktrace "\"abc\"" = "\"[string redacted]\"" ∧
    quoteScan "\"abc\"".data 6 0 [] = some [4] ∧
    refQuotePositions "\"abc\"".data [] 0 = [0, 4] := by
  decide

/-- C5: in Chrome without a global hook, for a caught `Error` instance that has
no `lineNumber`, `line` or `stack` property, `handleCatchException` raises the
host's `TypeError` and calls no report handler; with a global hook it raises
the same `TypeError` and leaves the pending slot empty. -/
theorem handleCatchException_raises_without_hook :
    chromeEnv.windowOnerror = false ∧
    handleCatchException chromeEnv 1000 1000 CatcherState.initial (.error bareErrorInstance)
        "click listener" =
      some (CatcherState.initial, .error (.error chromeEnv.typeErrorOfUndefined)) ∧
    handleCatchException { chromeEnv with windowOnerror := true } 1000 1000
        CatcherState.initial (.error bareErrorInstance) "click listener" =
      some (CatcherState.initial, .error (.error chromeEnv.typeErrorOfUndefined)) := by
  refine ⟨rfl, ?_, ?_⟩ <;> rfl

/-- C7 (as stated, refuted): the `arguments` object of a call with two
arguments is an array-like object of length 2, and `stringify` returns its tag
`[object Arguments]`, not the length placeholder. -/
theorem stringify_arraylike_tag_counterexample :
    isArrayLike argumentsObject = some 2 ∧
    stringify true argumentsObject = "[object Arguments]" ∧
    stringify true argumentsObject ≠ "[arraylike object, length = " ++ toString (2 : Int) ++ "]" := by
  decide

/-- C7 (amended): for a non-null object that is not a `Date`, whose `toString()`
returns a text that does not match the bracketed-tag pattern and whose `length`
is the number `n`, `stringify` returns `[arraylike object, length = n]`. -/
theorem stringify_arraylike (nameInPrototype : Bool) (o : ObjectDesc) (s : String) (n : Int)
    (hdate : o.instanceofDate = .ok false) (hstr : o.toStr = .ok s)
    (htag : bracketTag s.data = false) (hlen : o.length = .ok (some n)) :
    stringify nameInPrototype (.object o) = "[arraylike object, length = " ++ toString n ++ "]" := by
  simp [stringify, stringifySwitch, hdate, hstr, htag, hlen]

theorem stringify_arraylike_witness :
    stringify true (.object arrayOneTwo) =
      "[arraylike object, length = " ++ toString (2 : Int) ++ "]" :=
  stringify_arraylike true arrayOneTwo "1,2" 2 rfl rfl (by decide) rfl

/-- C8: `stringify` is a total function to strings; whenever its `try` block is
left by an exception the result is the placeholder `[<type>?]`, and this is
`[object?]` for an object whose `instanceof` check, `toString` call or `length`
read raises. -/
theorem stringify_never_throws (nameInPrototype : Bool) (thing : JsVal) :
    (stringifyFailed nameInPrototype thing = true →
      stringify nameInPrototype thing = "[???]" ∨
      stringify nameInPrototype thing = "[" ++ typeOf thing ++ "?]") ∧
    (∀ (o : ObjectDesc) (m : String), thing = .object o →
      (o.instanceofDate = .error m ∨ o.toStr = .error m ∨
        (o.instanceofDate = .ok false ∧ (∃ s, o.toStr = .ok s ∧ bracketTag s.data = false) ∧
          o.length = .error m)) →
      stringifyFailed nameInPrototype thing = true ∧
      stringify nameInPrototype thing = "[object?]") := by
  constructor
  · intro h
    right
    cases thing with
    | object o =>
      simp only [stringifyFailed, stringify, stringifySwitch] at h ⊢
      cases hd : o.instanceofDate with
      | error m => simp
      | ok b =>
        cases b with
        | true =>
          cases hs : o.toStr with
          | error m => simp
          | ok s => simp [hd, hs] at h
        | false =>
          cases hs : o.toStr with
          | error m => simp
          | ok s =>
            by_cases ht : bracketTag s.data = true
            · simp [hd, hs, ht] at h
            · cases hl : o.length with
              | error m => simp [ht]
              | ok l =>
                cases l with
                | none => simp [hd, hs, ht, hl] at h
                | some n => simp [hd, hs, ht, hl] at h
    | _ => simp [stringifyFailed, stringifySwitch] at h
  · intro o m hthing hfail
    subst hthing
    rcases hfail with hd | hs | ⟨hd, ⟨s, hs, ht⟩, hl⟩
    · constructor <;> simp [stringifyFailed, stringify, stringifySwitch, hd] <;> rfl
    · cases hd : o.instanceofDate with
      | error m2 => constructor <;> simp [stringifyFailed, stringify, stringifySwitch, hd] <;> rfl
      | ok b =>
        cases b <;> constructor <;>
          simp [stringifyFailed, stringify, stringifySwitch, hd, hs] <;> rfl
    · constructor <;>
        simp [stringifyFailed, stringify, stringifySwitch, hd, hs, ht, hl] <;> rfl

theorem stringify_never_throws_witness :
    stringifyFailed true (.object { arrayOneTwo with toStr := .error "denied" }) = true ∧
    stringify true (.object { arrayOneTwo with toStr := .error "denied" }) = "[object?]" :=
  (stringify_never_throws true (.object { arrayOneTwo with toStr := .error "denied" })).2
    { arrayOneTwo with toStr := .error "denied" } "denied" rfl (Or.inr (Or.inl rfl))

/-- C9: `redactString` returns the fixed marker for every string, so applying
it twice gives the same marker, and `stringify` of a string is the marker in
double quotes whatever the string. -/
theorem redactString_marker (nameInPrototype : Bool) (s : String) :
    redactString s = "[string redacted]" ∧
    redactString (redactString s) = redactString s ∧
    stringify nameInPrototype (.string s) = "\"[string redacted]\"" ∧
    (∀ t : String, stringify nameInPrototype (.string t) =
      stringify nameInPrototype (.string s)) := by
  refine ⟨rfl, rfl, ?_, ?_⟩
  · simp only [stringify, stringifySwitch, redactString]
    decide
  · intro t
    simp [stringify, stringifySwitch, redactString]

theorem count_originalRemove_of_ne (regs : List Registration) (r x : Registration)
    (h : x ≠ r) :
    (originalRemoveEventListener regs r).count x = regs.count x := by
  unfold originalRemoveEventListener
  apply List.count_filter
  simpa using h

theorem not_mem_originalRemove (regs : List Registration) (r : Registration) :
    r ∉ originalRemoveEventListener regs r := by
  simp [originalRemoveEventListener]

theorem not_mem_originalRemove_of_not_mem (regs : List Registration) (r x : Registration)
    (h : x ∉ regs) : x ∉ originalRemoveEventListener regs r := by
  simp [originalRemoveEventListener, h]

theorem count_originalAdd_self (regs : List Registration) (r : Registration)
    (h : regs.count r ≤ 1) : (originalAddEventListener regs r).count r = 1 := by
  unfold originalAddEventListener
  by_cases hm : r ∈ regs
  · simp only [hm, if_true]
    have := List.count_pos_iff.mpr hm
    omega
  · simp [hm, List.count_eq_zero.mpr hm]

theorem not_mem_originalAdd_of_ne (regs : List Registration) (r x : Registration)
    (hx : x ∉ regs) (hne : x ≠ r) : x ∉ originalAddEventListener regs r := by
  unfold originalAddEventListener
  by_cases hm : r ∈ regs <;> simp [hm, hx, hne]

theorem count_originalAdd_of_ne (regs : List Registration) (r x : Registration)
    (hne : x ≠ r) : (originalAddEventListener regs r).count x = regs.count x := by
  unfold originalAddEventListener
  by_cases hm : r ∈ regs
  · simp [hm]
  · simp only [hm, if_false, List.count_append, List.count_singleton]
    have : (r == x) = false := by simpa using fun h : r = x => hne h.symm
    simp [this]

theorem addEventListener_of_wrapped (s : DomState) (eventType : String) (f w : Nat)
    (useCapture : Bool) (hw : s.wrappedProperty f = some w) :
    addEventListener s eventType (.func f) useCapture =
      { s with
        registrations :=
          originalAddEventListener
            (originalRemoveEventListener s.registrations ⟨eventType, .func f, useCapture⟩)
            ⟨eventType, .object w, useCapture⟩ } := by
  simp [addEventListener, assignWrappedProperty, hw, originalAddEventListenerValue]

theorem addEventListener_func (s : DomState) (eventType : String) (f : Nat)
    (useCapture : Bool)
    (hext : s.extensible f = true ∨ (s.wrappedProperty f).isSome = true) :
    ∃ w, (addEventListener s eventType (.func f) useCapture).wrappedProperty f = some w ∧
      (s.wrappedProperty f = none ∨ s.wrappedProperty f = some w) ∧
      (addEventListener s eventType (.func f) useCapture).registrations =
        originalAddEventListener
          (originalRemoveEventListener s.registrations ⟨eventType, .func f, useCapture⟩)
          ⟨eventType, .object w, useCapture⟩ := by
  cases h : s.wrappedProperty f with
  | none =>
    have he : s.extensible f = true := by
      rcases hext with he | he
      · exact he
      · rw [h] at he; cases he
    exact ⟨s.nextObject,
      by simp [addEventListener, assignWrappedProperty, h, he], Or.inl rfl,
      by simp [addEventListener, assignWrappedProperty, h, he, originalAddEventListenerValue]⟩
  | some w =>
    exact ⟨w, by simp [addEventListener, assignWrappedProperty, h], Or.inr rfl,
      by simp [addEventListener, assignWrappedProperty, h, originalAddEventListenerValue]⟩

/-- For a function listener that accepts the wrapper property (it is extensible
or has the property already), on a target whose registrations are free of
duplicates: the first call of the wrapped `addEventListener` gives the listener
its wrapper `w`, registers `w` exactly once, leaves no raw registration and
changes no other registration; a second call changes nothing at all; one call
of the wrapped `removeEventListener` then leaves neither `w` nor the raw
listener registered and every other registration as it was at the start. -/
theorem addEventListener_twice_removeEventListener_once (s : DomState) (eventType : String)
    (f : Nat) (useCapture : Bool) (hnodup : s.registrations.Nodup)
    (hext : s.extensible f = true ∨ (s.wrappedProperty f).isSome = true) :
    ∃ w : Nat,
      (addEventListener s eventType (.func f) useCapture).wrappedProperty f = some w ∧
      (s.wrappedProperty f = none ∨ s.wrappedProperty f = some w) ∧
      addEventListener (addEventListener s eventType (.func f) useCapture)
        eventType (.func f) useCapture =
        addEventListener s eventType (.func f) useCapture ∧
      (addEventListener s eventType (.func f) useCapture).registrations.count
          ⟨eventType, .object w, useCapture⟩ = 1 ∧
      (addEventListener s eventType (.func f) useCapture).registrations.count
          ⟨eventType, .func f, useCapture⟩ = 0 ∧
      (∀ r : Registration, r ≠ ⟨eventType, .func f, useCapture⟩ →
        r ≠ ⟨eventType, .object w, useCapture⟩ →
        (addEventListener s eventType (.func f) useCapture).registrations.count r =
          s.registrations.count r) ∧
      (removeEventListener
        (addEventListener (addEventListener s eventType (.func f) useCapture)
          eventType (.func f) useCapture) eventType (.func f) useCapture).registrations.count
          ⟨eventType, .object w, useCapture⟩ = 0 ∧
      (removeEventListener
        (addEventListener (addEventListener s eventType (.func f) useCapture)
          eventType (.func f) useCapture) eventType (.func f) useCapture).registrations.count
          ⟨eventType, .func f, useCapture⟩ = 0 ∧
      (∀ r : Registration, r ≠ ⟨eventType, .func f, useCapture⟩ →
        r ≠ ⟨eventType, .object w, useCapture⟩ →
        (removeEventListener
          (addEventListener (addEventListener s eventType (.func f) useCapture)
            eventType (.func f) useCapture) eventType (.func f) useCapture).registrations.count
            r = s.registrations.count r) := by
  obtain ⟨w, hw1, hsame, hr1⟩ := addEventListener_func s eventType f useCapture hext
  have hne : (⟨eventType, .object w, useCapture⟩ : Registration) ≠
      ⟨eventType, .func f, useCapture⟩ := by
    intro h; cases h
  have hne2 : (⟨eventType, .func f, useCapture⟩ : Registration) ≠
      ⟨eventType, .object w, useCapture⟩ := fun h => hne h.symm
  have hc0 : s.registrations.count ⟨eventType, .object w, useCapture⟩ ≤ 1 :=
    List.nodup_iff_count_le_one.mp hnodup _
  have hc1 : (addEventListener s eventType (.func f) useCapture).registrations.count
      ⟨eventType, .object w, useCapture⟩ = 1 := by
    rw [hr1]
    apply count_originalAdd_self
    rw [count_originalRemove_of_ne _ _ _ hne]
    exact hc0
  have hraw1 : (⟨eventType, .func f, useCapture⟩ : Registration) ∉
      (addEventListener s eventType (.func f) useCapture).registrations := by
    rw [hr1]
    exact not_mem_originalAdd_of_ne _ _ _ (not_mem_originalRemove _ _) hne2
  have hother1 : ∀ r : Registration, r ≠ ⟨eventType, .func f, useCapture⟩ →
      r ≠ ⟨eventType, .object w, useCapture⟩ →
      (addEventListener s eventType (.func f) useCapture).registrations.count r =
        s.registrations.count r := by
    intro r h1 h2
    rw [hr1, count_originalAdd_of_ne _ _ _ h2, count_originalRemove_of_ne _ _ _ h1]
  have hrem1 : originalRemoveEventListener
      (addEventListener s eventType (.func f) useCapture).registrations
      ⟨eventType, .func f, useCapture⟩ =
      (addEventListener s eventType (.func f) useCapture).registrations := by
    unfold originalRemoveEventListener
    rw [List.filter_eq_self]
    intro x hx
    have : x ≠ ⟨eventType, .func f, useCapture⟩ := fun h => hraw1 (h ▸ hx)
    simpa using this
  have hmem1 : (⟨eventType, .object w, useCapture⟩ : Registration) ∈
      (addEventListener s eventType (.func f) useCapture).registrations :=
    List.count_pos_iff.mp (by omega)
  have hidem : addEventListener (addEventListener s eventType (.func f) useCapture)
      eventType (.func f) useCapture =
      addEventListener s eventType (.func f) useCapture := by
    rw [addEventListener_of_wrapped _ eventType f w useCapture hw1, hrem1]
    simp [originalAddEventListener, hmem1]
  refine ⟨w, hw1, hsame, hidem, hc1, List.count_eq_zero.mpr hraw1, hother1, ?_, ?_, ?_⟩
  · apply List.count_eq_zero.mpr
    rw [hidem]
    simp only [removeEventListener, hw1]
    exact not_mem_originalRemove _ _
  · apply List.count_eq_zero.mpr
    rw [hidem]
    simp only [removeEventListener, hw1]
    exact not_mem_originalRemove_of_not_mem _ _ _ (not_mem_originalRemove _ _)
  · intro r h1 h2
    rw [hidem]
    simp only [removeEventListener, hw1]
    rw [count_originalRemove_of_ne _ _ _ h2, count_originalRemove_of_ne _ _ _ h1,
      hother1 r h1 h2]

theorem addEventListener_twice_removeEventListener_once_witness :
    (addEventListener rawRegistered "click" (.func 7) false).registrations =
      [⟨"keyup", .func 7, false⟩, ⟨"click", .object 0, false⟩] ∧
    addEventListener (addEventListener rawRegistered "click" (.func 7) false)
      "click" (.func 7) false = addEventListener rawRegistered "click" (.func 7) false ∧
    (removeEventListener
      (addEventListener (addEventListener rawRegistered "click" (.func 7) false)
        "click" (.func 7) false) "click" (.func 7) false).registrations =
      [⟨"keyup", .func 7, false⟩] := by
  obtain ⟨_, _, _, h, _⟩ :=
    addEventListener_twice_removeEventListener_once rawRegistered "click" 7 false (by decide)
      (Or.inl rfl)
  exact ⟨by decide, h, by decide⟩

/-- C6: for a function listener that is not extensible, the assignment of the
wrapper property is ignored, the wrapped `addEventListener` removes the raw
registration and passes `undefined` to the native one, and after two calls no
registration of the listener or of a wrapper is left for the event type,
instead of exactly one. -/
theorem addEventListener_drops_non_extensible_listener :
    frozenRegistered.extensible 7 = false ∧
    frozenRegistered.registrations =
      [⟨"click", .func 7, false⟩, ⟨"keyup", .func 7, false⟩] ∧
    (addEventListener (addEventListener frozenRegistered "click" (.func 7) false)
      "click" (.func 7) false).registrations = [⟨"keyup", .func 7, false⟩] ∧
    (addEventListener (addEventListener frozenRegistered "click" (.func 7) false)
      "click" (.func 7) false).wrappedProperty 7 = none ∧
    ((addEventListener (addEventListener frozenRegistered "click" (.func 7) false)
      "click" (.func 7) false).registrations.filter
        (fun r => r.eventType == "click")).length = 0 := by
  decide

theorem getStacktraceLoop_chain (nameInPrototype : Bool) (g : CallGraph) :
    ∀ (chain : List (Fin g.size)) (f : Fin g.size), IsCallerChain g (f :: chain) →
      ∀ (used : List (Fin g.size)) (fuel : Nat) (stacktrace : String),
        (used ++ f :: chain).Nodup → chain.length < fuel →
        getStacktraceLoop nameInPrototype g fuel f used 0 stacktrace =
          some (stacktrace ++ concatAll ((f :: chain).map (frameLine nameInPrototype g))) := by
  intro chain
  induction chain with
  | nil =>
    intro f hchain used fuel stacktrace _ hfuel
    cases fuel with
    | zero => omega
    | succ k =>
      have hc : (g.frame f).caller = .ok none := hchain
      simp [getStacktraceLoop, hc, concatAll]
  | cons f' rest ih =>
    intro f hchain used fuel stacktrace hnodup hfuel
    cases fuel with
    | zero => omega
    | succ k =>
      have hc : (g.frame f).caller = .ok (some f') := hchain.1
      have hnot : (used ++ [f]).any (fun u => u == f') = false := by
        rw [List.any_eq_false]
        intro u hu
        have hn : (used ++ [f] ++ f' :: rest).Nodup := by simpa using hnodup
        have hdis := (List.nodup_append.mp hn).2.2
        have : u ≠ f' := fun h => hdis hu (by simp [h])
        simpa using this
      have hrec := ih f' hchain.2 (used ++ [f]) k (stacktrace ++ frameLine nameInPrototype g f)
        (by simpa using hnodup) (by simp at hfuel; omega)
      simp only [getStacktraceLoop, hc, hnot]
      simp only [gt_iff_lt, Nat.not_lt_zero, if_false, Bool.false_eq_true] at hrec ⊢
      rw [hrec]
      simp [concatAll, String.append_assoc]

/-- C10: on an acyclic caller chain `f1 -> ... -> fn` whose last function has
no caller and whose caller references are all readable, `getStacktrace(f1)`
returns the concatenation, in caller order, of the `n` frames
`getFunctionName(fi) + getFunctionArgumentsString(fi) + '\n'` and nothing
else; a chain of three functions gives exactly its three frames. -/
theorem getStacktrace_acyclic_chain (nameInPrototype : Bool) (g : CallGraph)
    (f1 : Fin g.size) (rest : List (Fin g.size))
    (hchain : IsCallerChain g (f1 :: rest)) (hacyclic : (f1 :: rest).Nodup) :
    getStacktrace nameInPrototype g f1 =
      some (concatAll ((f1 :: rest).map (fun f =>
        getFunctionName nameInPrototype (g.frame f).desc ++
          getFunctionArgumentsString nameInPrototype (g.frame f) ++ "\n"))) ∧
    ((f1 :: rest).map (fun f =>
        getFunctionName nameInPrototype (g.frame f).desc ++
          getFunctionArgumentsString nameInPrototype (g.frame f) ++ "\n")).length =
      rest.length + 1 ∧
    (∀ f2 f3 : Fin g.size, rest = [f2, f3] →
      getStacktrace nameInPrototype g f1 =
        some ((getFunctionName nameInPrototype (g.frame f1).desc ++
            getFunctionArgumentsString nameInPrototype (g.frame f1) ++ "\n") ++
          ((getFunctionName nameInPrototype (g.frame f2).desc ++
            getFunctionArgumentsString nameInPrototype (g.frame f2) ++ "\n") ++
          (getFunctionName nameInPrototype (g.frame f3).desc ++
            getFunctionArgumentsString nameInPrototype (g.frame f3) ++ "\n")))) := by
  have hlen : (f1 :: rest).length ≤ g.size := by
    have := List.Nodup.length_le_card hacyclic
    simpa using this
  have hmain := getStacktraceLoop_chain nameInPrototype g rest f1 hchain [] (g.size + 1) ""
    (by simpa using hacyclic) (by simp at hlen; omega)
  have hres : getStacktrace nameInPrototype g f1 =
      some (concatAll ((f1 :: rest).map (fun f =>
        getFunctionName nameInPrototype (g.frame f).desc ++
          getFunctionArgumentsString nameInPrototype (g.frame f) ++ "\n"))) := by
    unfold getStacktrace
    rw [hmain]
    simp [frameLine]
    rfl
  refine ⟨hres, by simp, ?_⟩
  intro f2 f3 hrest
  rw [hres, hrest]
  simp [concatAll]

theorem getStacktrace_acyclic_chain_witness :
    getStacktrace true threeFrames innerFunction =
      some "inner(1,\"[string redacted]\")\nmiddle()\nouter(...?)\n" :=
  ((getStacktrace_acyclic_chain true threeFrames innerFunction [middleFunction, outerFunction]
    ⟨rfl, rfl, rfl⟩ (by decide)).2.2 middleFunction outerFunction rfl).trans (by decide)

/-! ### Termination of the stack walker and its output on a cycle -/

theorem getStacktraceLoop_total (nameInPrototype : Bool) (g : CallGraph) :
    ∀ (fuel : Nat) (func : Fin g.size) (used : List (Fin g.size)) (length : Nat)
      (stacktrace : String),
      (used ++ [func]).Nodup → g.size ≤ fuel + used.length →
      ∃ s, getStacktraceLoop nameInPrototype g fuel func used length stacktrace = some s := by
  intro fuel
  induction fuel with
  | zero =>
    intro func used length stacktrace hnodup hfuel
    have hcard := List.Nodup.length_le_card hnodup
    simp at hcard hfuel
    omega
  | succ k ih =>
    intro func used length stacktrace hnodup hfuel
    simp only [getStacktraceLoop]
    cases hc : (g.frame func).caller with
    | error message => exact ⟨_, rfl⟩
    | ok next =>
      cases next with
      | none => exact ⟨_, rfl⟩
      | some next =>
        by_cases hany : (used ++ [func]).any (fun u => u == next) = true
        · simp only [hany, if_true]
          exact ⟨_, rfl⟩
        · simp only [hany, if_false, Bool.false_eq_true]
          apply ih
          · rw [List.nodup_append]
            refine ⟨hnodup, List.nodup_singleton _, ?_⟩
            intro x hx hx2
            have hxe : x = next := by simpa using hx2
            subst hxe
            apply hany
            rw [List.any_eq_true]
            exact ⟨x, hx, by simp⟩
          · simp
            omega

theorem getStacktraceLoop_cycle (nameInPrototype : Bool) (g : CallGraph) :
    ∀ (path : List (Fin g.size)) (f target : Fin g.size), IsCallerCycle g (f :: path) target →
      ∀ (used : List (Fin g.size)) (fuel : Nat) (stacktrace : String),
        (used ++ f :: path).Nodup → target ∈ used ++ f :: path → path.length < fuel →
        getStacktraceLoop nameInPrototype g fuel f used 0 stacktrace =
          some (stacktrace ++ concatAll ((f :: path).map (frameLine nameInPrototype g)) ++
            (getFunctionName nameInPrototype (g.frame target).desc ++ "(???)\n(...)\n")) := by
  intro path
  induction path with
  | nil =>
    intro f target hcycle used fuel stacktrace _ hmem hfuel
    cases fuel with
    | zero => omega
    | succ k =>
      have hc : (g.frame f).caller = .ok (some target) := hcycle
      have hany : (used ++ [f]).any (fun u => u == target) = true := by
        rw [List.any_eq_true]
        exact ⟨target, hmem, by simp⟩
      simp [getStacktraceLoop, hc, hany, concatAll]
  | cons f' rest ih =>
    intro f target hcycle used fuel stacktrace hnodup hmem hfuel
    cases fuel with
    | zero => omega
    | succ k =>
      have hc : (g.frame f).caller = .ok (some f') := hcycle.1
      have hnot : (used ++ [f]).any (fun u => u == f') = false := by
        rw [List.any_eq_false]
        intro u hu
        have hn : (used ++ [f] ++ f' :: rest).Nodup := by simpa using hnodup
        have hdis := (List.nodup_append.mp hn).2.2
        have : u ≠ f' := fun h => hdis hu (by simp [h])
        simpa using this
      have hrec := ih f' target hcycle.2 (used ++ [f]) k
        (stacktrace ++ frameLine nameInPrototype g f)
        (by simpa using hnodup) (by simpa using hmem) (by simp at hfuel; omega)
      simp only [getStacktraceLoop, hc, hnot]
      simp only [gt_iff_lt, Nat.not_lt_zero, if_false, Bool.false_eq_true] at hrec ⊢
      rw [hrec]
      simp [concatAll, String.append_assoc]

/-- C11 (as stated, refuted): on the two functions `a` and `b` that call each
other, `getStacktrace(a)` returns the frames of `a` and `b`, then the line
`a(???)` for the revisited function, then the marker `(...)`; this is not the
two frame lines followed by the marker alone. -/
theorem getStacktrace_cycle_extra_line_counterexample :
    getStacktrace true twoCycle cycleA = some "a()\nb()\na(???)\n(...)\n" ∧
    getStacktrace true twoCycle cycleA ≠
      some (frameLine true twoCycle cycleA ++ frameLine true twoCycle cycleB ++ "(...)\n") := by
  decide

/-- C11 (amended): on every finite caller graph `getStacktrace` returns; and
when the caller references from the start function lead through distinct
functions `f1, ..., fk` back to one of them, the result is the frame lines of
`f1, ..., fk` in order, followed by the name of the revisited function with
`(???)`, followed by one marker `(...)`, and nothing more. -/
theorem getStacktrace_terminates_and_cycle (nameInPrototype : Bool) (g : CallGraph)
    (top : Fin g.size) :
    (∃ s, getStacktrace nameInPrototype g top = some s) ∧
    (∀ (rest : List (Fin g.size)) (target : Fin g.size),
      IsCallerCycle g (top :: rest) target → (top :: rest).Nodup → target ∈ top :: rest →
      getStacktrace nameInPrototype g top =
        some (concatAll ((top :: rest).map (fun f =>
            getFunctionName nameInPrototype (g.frame f).desc ++
              getFunctionArgumentsString nameInPrototype (g.frame f) ++ "\n")) ++
          (getFunctionName nameInPrototype (g.frame target).desc ++ "(???)\n" ++ "(...)\n"))) := by
  constructor
  · exact getStacktraceLoop_total nameInPrototype g (g.size + 1) top [] 0 ""
      (by simp) (by simp)
  · intro rest target hcycle hnodup hmem
    have hlen : (top :: rest).length ≤ g.size := by
      have := List.Nodup.length_le_card hnodup
      simpa using this
    have hmain := getStacktraceLoop_cycle nameInPrototype g rest top target hcycle []
      (g.size + 1) "" (by simpa using hnodup) (by simpa using hmem)
      (by simp at hlen; omega)
    have hfl : frameLine nameInPrototype g = fun f =>
        getFunctionName nameInPrototype (g.frame f).desc ++
          getFunctionArgumentsString nameInPrototype (g.frame f) ++ "\n" := by
      funext f
      rfl
    have hlit : ("(???)\n" ++ "(...)\n" : String) = "(???)\n(...)\n" := by decide
    unfold getStacktrace
    rw [hmain, hfl, String.append_assoc _ "(???)\n" "(...)\n", hlit]
    simp

theorem getStacktrace_terminates_and_cycle_witness :
    getStacktrace true twoCycle cycleA = some "a()\nb()\na(???)\n(...)\n" :=
  ((getStacktrace_terminates_and_cycle true twoCycle cycleA).2 [cycleB] cycleA
    ⟨rfl, rfl⟩ (by decide) (by decide)).trans (by decide)

set_option maxRecDepth 100000 in
/-- C13: on the acyclic chain of 52 functions `f`, `getStacktrace` returns the
52 frame lines `f()` and the text contains no marker `(...)`: the counter
`length` that is compared with 50 is never incremented. -/
theorem getStacktrace_deep_chain_no_marker :
    (getStacktrace true deepChain deepTop).map (fun s => s.data.length) = some (52 * 4) ∧
    (getStacktrace true deepChain deepTop).map (fun s => containsSub "(...)".data s.data) =
      some false := by
  decide

/-! ### The global hook -/

theorem reportException_rate_limit_cases (env : Env) (d now : Int) (st : CatcherState) :
    ∀ e : ErrorObject,
      (d - st.lastError_ < (st.errorDelay_ : Int) →
        (reportException env d now st e).handed = st.handed ∧
        (reportException env d now st e).lastError_ = st.lastError_ ∧
        (reportException env d now st e).errorDelay_ = st.errorDelay_) ∧
      (¬ (d - st.lastError_ < (st.errorDelay_ : Int)) →
        (reportException env d now st e).handed = st.handed ++ [buildReport env now e] ∧
        (reportException env d now st e).lastError_ = d ∧
        (reportException env d now st e).errorDelay_ = 2 * st.errorDelay_) := by
  intro e
  constructor
  · intro h
    simp [reportException, h]
  · intro h
    simp [reportException, h, Nat.mul_comm]

theorem reportException_slot (env : Env) (d now : Int) (st : CatcherState) (e : ErrorObject) :
    (reportException env d now st e).lastDomWrapperError_ = st.lastDomWrapperError_ := by
  unfold reportException
  split <;> rfl

theorem onerrorStacktrace_total (env : Env) (g : CallGraph) (hook : Fin g.size)
    (stacktrace : Option String) : ∃ r, onerrorStacktrace env g hook stacktrace = some r := by
  unfold onerrorStacktrace
  split
  · cases hc : (g.frame hook).caller with
    | error message => exact ⟨_, rfl⟩
    | ok caller =>
      cases caller with
      | none =>
        obtain ⟨s, hs⟩ := getStacktraceLoop_total env.nameInFunctionPrototype g (g.size + 1)
          hook [] 0 "" (by simp) (by simp)
        exact ⟨some s, by simp [getStacktrace, hs]⟩
      | some f =>
        obtain ⟨s, hs⟩ := getStacktraceLoop_total env.nameInFunctionPrototype g (g.size + 1)
          f [] 0 "" (by simp) (by simp)
        exact ⟨some s, by simp [getStacktrace, hs]⟩
  · exact ⟨_, rfl⟩

/-- C12 (as stated, refuted): in a state where the rate limiter drops the
report (time 5, last report 0, delay 10) the hook hands no record to the report
handler; and for a pending record whose message is the empty string and whose
line is `0` the object passed on has the host's message and line, not the
pending ones. -/
theorem window_onerror_no_record_counterexample :
    (window_onerror ieEnv threeFrames innerFunction none 5 5 pendingState
      (some "Object expected") (some "http://example.com/a.js") (some (.num 42))).map
        (fun r => r.1.handed.length) = some 0 ∧
    falsyPendingRecord.message = some "" ∧
    lineText falsyPendingRecord.line = "0" ∧
    (onerrorErrorObject ieEnv threeFrames innerFunction none (some falsyPendingRecord)
      (some "Object expected") (some "http://example.com/a.js") (some (.num 42))).map
        (fun eo => (eo.message, lineText eo.line)) = some (some "Object expected", "42") := by
  decide

/-- C12 (amended): for every pending record (or none) and every invocation of
the global hook with message `m`, url `u` and line `l`, the hook builds one
object whose message is the pending one when that is a non-empty string and `m`
otherwise, whose url and line are the pending ones when those are truthy (a
non-empty string, a non-zero number) and `u`, `l` otherwise, and whose context
is the pending one; it passes this object to `reportException`, so that the
record built from it is handed to the report handler exactly once unless the
rate limiter drops it; the pending slot is empty afterwards and the hook
returns normally. -/
theorem window_onerror_merges_pending (env : Env) (g : CallGraph) (hook : Fin g.size)
    (windowEvent : Option (Option Int)) (d now : Int) (st : CatcherState)
    (m u : Option String) (l : Option LineVal) :
    ∃ (eo : ErrorObject) (st' : CatcherState),
      onerrorErrorObject env g hook windowEvent st.lastDomWrapperError_ m u l = some eo ∧
      window_onerror env g hook windowEvent d now st m u l = some (st', .ok ()) ∧
      st' = reportException env d now { st with lastDomWrapperError_ := none } eo ∧
      st'.lastDomWrapperError_ = none ∧
      (¬ (d - st.lastError_ < (st.errorDelay_ : Int)) →
        st'.handed = st.handed ++ [buildReport env now eo] ∧
        st'.lastError_ = d ∧ st'.errorDelay_ = 2 * st.errorDelay_) ∧
      (d - st.lastError_ < (st.errorDelay_ : Int) →
        st'.handed = st.handed ∧ st'.lastError_ = st.lastError_ ∧
        st'.errorDelay_ = st.errorDelay_) ∧
      eo.message =
        (match st.lastDomWrapperError_.bind (fun p => p.message) with
         | some s => if s = "" then m else some s
         | none => m) ∧
      eo.url =
        (match st.lastDomWrapperError_.bind (fun p => p.url) with
         | some s => if s = "" then u else some s
         | none => u) ∧
      eo.line =
        (match st.lastDomWrapperError_.bind (fun p => p.line) with
         | some v => if v.truthy = true then some v else l
         | none => l) ∧
      eo.context = st.lastDomWrapperError_.bind (fun p => p.context) := by
  obtain ⟨r, hr⟩ := onerrorStacktrace_total env g hook
    (st.lastDomWrapperError_.getD emptyErrorObject).stacktrace
  have hrate := reportException_rate_limit_cases env d now
    { st with lastDomWrapperError_ := none }
  refine ⟨{ (st.lastDomWrapperError_.getD emptyErrorObject) with
      message := jsOr (st.lastDomWrapperError_.getD emptyErrorObject).message m
      url := jsOr (st.lastDomWrapperError_.getD emptyErrorObject).url u
      line := jsOrLine (st.lastDomWrapperError_.getD emptyErrorObject).line l
      character := onerrorCharacter windowEvent
        (st.lastDomWrapperError_.getD emptyErrorObject).character
      stacktrace := r }, _, ?_, ?_, rfl, ?_, ?_, ?_, ?_, ?_, ?_, ?_⟩
  · simp [onerrorErrorObject, hr]
  · simp [window_onerror, onerrorErrorObject, hr]
  · rw [reportException_slot]
  · intro h
    exact (hrate _).2 h
  · intro h
    exact (hrate _).1 h
  · cases hp : st.lastDomWrapperError_ with
    | none => simp [emptyErrorObject, jsOr]
    | some p =>
      cases hm : p.message with
      | none => simp [jsOr, hm]
      | some s => by_cases hs : s = "" <;> simp [jsOr, hm, hs]
  · cases hp : st.lastDomWrapperError_ with
    | none => simp [emptyErrorObject, jsOr]
    | some p =>
      cases hm : p.url with
      | none => simp [jsOr, hm]
      | some s => by_cases hs : s = "" <;> simp [jsOr, hm, hs]
  · cases hp : st.lastDomWrapperError_ with
    | none => simp [emptyErrorObject, jsOrLine]
    | some p =>
      cases hm : p.line with
      | none => simp [jsOrLine, hm]
      | some v => by_cases hv : v.truthy = true <;> simp [jsOrLine, hm, hv]
  · cases hp : st.lastDomWrapperError_ with
    | none => simp [emptyErrorObject]
    | some p => simp

theorem window_onerror_merges_pending_witness :
    ∃ (eo : ErrorObject) (st' : CatcherState),
      onerrorErrorObject ieEnv threeFrames innerFunction none pendingState.lastDomWrapperError_
        (some "Object expected") (some "http://example.com/a.js") (some (.num 42)) = some eo ∧
      window_onerror ieEnv threeFrames innerFunction none 1000 1000 pendingState
        (some "Object expected") (some "http://example.com/a.js") (some (.num 42)) =
        some (st', .ok ()) ∧
      st'.handed = pendingState.handed ++ [buildReport ieEnv 1000 eo] ∧
      eo.message = some "boom" ∧ eo.url = some "http://example.com/a.js" ∧
      eo.context = some "click listener" := by
  obtain ⟨eo, st', h1, h2, _, _, h5, _, h7, h8, _, h10⟩ :=
    window_onerror_merges_pending ieEnv threeFrames innerFunction none 1000 1000 pendingState
      (some "Object expected") (some "http://example.com/a.js") (some (.num 42))
  exact ⟨eo, st', h1, h2, (h5 (by decide)).1, h7, h8, h10⟩

/-! ### The quote positions found and kept by `redactLine` -/

theorem indexOfAux_none (c : Char) :
    ∀ (l : List Char) (pos : Nat), indexOfAux c l pos = none → positionsOf c l pos = [] := by
  intro l
  induction l with
  | nil => intro pos _; rfl
  | cons x xs ih =>
    intro pos h
    simp only [indexOfAux] at h
    by_cases hx : (x == c) = true
    · simp [hx] at h
    · simp only [hx] at h
      simp only [positionsOf, hx]
      exact ih (pos + 1) h

theorem indexOfAux_some (c : Char) :
    ∀ (l : List Char) (pos i : Nat), indexOfAux c l pos = some i →
      positionsOf c l pos = i :: positionsOf c (l.drop (i + 1 - pos)) (i + 1) := by
  intro l
  induction l with
  | nil => intro pos i h; simp [indexOfAux] at h
  | cons x xs ih =>
    intro pos i h
    simp only [indexOfAux] at h
    by_cases hx : (x == c) = true
    · simp only [hx, if_true, Option.some.injEq] at h
      subst h
      simp [positionsOf, hx]
    · simp only [hx] at h
      have hb := indexOfAux_bounds c xs (pos + 1) i h
      have hrec := ih (pos + 1) i h
      simp only [positionsOf, hx]
      rw [hrec]
      have e : i + 1 - pos = (i + 1 - (pos + 1)) + 1 := by omega
      rw [e, List.drop_succ_cons]
      simp

theorem quoteScan_eq (line : List Char) :
    ∀ (fuel index : Nat) (acc : List Nat), line.length + 1 ≤ fuel + index →
      index ≤ line.length →
      quoteScan line fuel index acc =
        some (acc ++ positionsOf '"' (line.drop (index + 1)) (index + 1)) := by
  intro fuel
  induction fuel with
  | zero => intro index acc h1 h2; omega
  | succ k ih =>
    intro index acc h1 h2
    simp only [quoteScan]
    cases hi : indexOf line '"' (index + 1) with
    | none =>
      have := indexOfAux_none '"' _ _ hi
      simp [this]
    | some i =>
      have hb := indexOf_bounds line '"' (index + 1) i hi
      have hs := indexOfAux_some '"' _ _ _ hi
      show quoteScan line k i (acc ++ [i]) = _
      rw [ih i (acc ++ [i]) (by omega) (by omega), hs, List.drop_drop]
      have e : index + 1 + (i + 1 - (index + 1)) = i + 1 := by omega
      rw [e]
      simp

theorem refTrailingBackslashes_cons (c : Char) (rest : List Char) :
    refTrailingBackslashes (c :: rest) =
      if c = '\\' then refTrailingBackslashes rest + 1 else 0 := by
  by_cases h : c = '\\'
  · subst h
    rfl
  · rw [if_neg h]
    unfold refTrailingBackslashes
    split
    · rename_i heq
      cases heq
      exact absurd rfl h
    · rfl

theorem backslashCount_eq :
    ∀ (before l : List Char) (count : Nat),
      backslashCount (before.reverse ++ l) before.length count =
        count + refTrailingBackslashes before := by
  intro before
  induction before with
  | nil => intro l count; simp [backslashCount, refTrailingBackslashes]
  | cons b bs ih =>
    intro l count
    have hline : (b :: bs).reverse ++ l = bs.reverse ++ (b :: l) := by simp
    have hget : (bs.reverse ++ (b :: l))[bs.length]? = some b := by
      rw [List.getElem?_append_right (by simp)]
      simp
    rw [hline]
    simp only [List.length_cons, backslashCount, hget, refTrailingBackslashes_cons]
    by_cases hb : b = '\\'
    · subst hb
      have := ih ('\\' :: l) (count + 1)
      simp only [bne_self_eq_false, Bool.false_eq_true, if_false, if_true]
      rw [this]
      omega
    · have : (some b != some '\\') = true := by simpa using hb
      simp [this, hb]

theorem filter_positionsOf_eq (line : List Char) :
    ∀ (l before : List Char) (pos : Nat), line = before.reverse ++ l → pos = before.length →
      (positionsOf '"' l pos).filter (quoteUnescaped line) = refQuotePositions l before pos := by
  intro l
  induction l with
  | nil => intro before pos _ _; rfl
  | cons x xs ih =>
    intro before pos hline hpos
    have hrec := ih (x :: before) (pos + 1) (by simp [hline]) (by simp [hpos])
    have hq : quoteUnescaped line pos = (refTrailingBackslashes before % 2 == 0) := by
      unfold quoteUnescaped
      rw [hline, hpos, backslashCount_eq]
      simp
    simp only [positionsOf, refQuotePositions]
    by_cases hx : (x == '"') = true
    · simp only [hx, if_true, List.filter_cons, hq, Bool.true_and]
      rw [hrec]
    · simp only [hx, Bool.false_and, if_false, Bool.false_eq_true]
      rw [hrec]

theorem filteredQuoteLocations_eq (line : List Char) :
    filteredQuoteLocations line =
      some (refQuotePositions (line.drop 1) (line.take 1).reverse 1) := by
  unfold filteredQuoteLocations
  rw [quoteScan_eq line (line.length + 1) 0 [] (by omega) (by omega)]
  simp only [Option.map_some', List.nil_append, Nat.zero_add]
  cases line with
  | nil => rfl
  | cons c cs =>
    rw [filter_positionsOf_eq (c :: cs) ((c :: cs).drop 1) ((c :: cs).take 1).reverse 1
      (by simp) (by simp)]

theorem refQuotePositions_ge :
    ∀ (l before : List Char) (pos q : Nat), q ∈ refQuotePositions l before pos → pos ≤ q := by
  intro l
  induction l with
  | nil => intro before pos q h; simp [refQuotePositions] at h
  | cons x xs ih =>
    intro before pos q h
    simp only [refQuotePositions] at h
    split at h
    · rcases List.mem_cons.mp h with h | h
      · omega
      · have := ih _ _ _ h
        omega
    · have := ih _ _ _ h
      omega

theorem refQuotePositions_lt :
    ∀ (l before : List Char) (pos q : Nat), q ∈ refQuotePositions l before pos →
      q < pos + l.length := by
  intro l
  induction l with
  | nil => intro before pos q h; simp [refQuotePositions] at h
  | cons x xs ih =>
    intro before pos q h
    simp only [refQuotePositions] at h
    simp only [List.length_cons]
    split at h
    · rcases List.mem_cons.mp h with h | h
      · omega
      · have := ih _ _ _ h
        omega
    · have := ih _ _ _ h
      omega

theorem mem_refQuotePositions_iff :
    ∀ (l before : List Char) (pos p : Nat), pos = before.length → pos ≤ p →
      (before.reverse ++ l)[p]? = some '"' →
      (p ∈ refQuotePositions l before pos ↔
        refTrailingBackslashes ((before.reverse ++ l).take p).reverse % 2 = 0) := by
  intro l
  induction l with
  | nil =>
    intro before pos p hpos hle hq
    rw [List.getElem?_eq_none (by simp; omega)] at hq
    cases hq
  | cons x xs ih =>
    intro before pos p hpos hle hq
    by_cases hp : p = pos
    · subst hp
      have hx : x = '"' := by
        rw [hpos, List.getElem?_append_right (by simp)] at hq
        simpa using hq
      have htake : ((before.reverse ++ x :: xs).take p).reverse = before := by
        rw [hpos, List.take_append_of_le_length (by simp)]
        rw [List.take_of_length_le (by simp), List.reverse_reverse]
      rw [htake]
      simp only [refQuotePositions, hx, beq_self_eq_true, Bool.true_and]
      by_cases hpar : refTrailingBackslashes before % 2 = 0
      · simp [hpar]
      · have hnot : p ∉ refQuotePositions xs ('"' :: before) (p + 1) := by
          intro hmem
          have := refQuotePositions_ge _ _ _ _ hmem
          omega
        simp [hpar, hnot]
    · have hline : before.reverse ++ x :: xs = (x :: before).reverse ++ xs := by simp
      have hrec := ih (x :: before) (pos + 1) p (by simp [hpos]) (by omega)
        (by rw [← hline]; exact hq)
      rw [← hline] at hrec
      rw [← hrec]
      simp only [refQuotePositions]
      split
      · simp [hp]
      · rfl

theorem refTrailingBackslashes_replicate (k : Nat) (rest : List Char) :
    refTrailingBackslashes (List.replicate k '\\' ++ rest) = k + refTrailingBackslashes rest := by
  induction k with
  | zero => simp
  | succ n ih =>
    rw [List.replicate_succ, List.cons_append, refTrailingBackslashes_cons, if_pos rfl, ih]
    omega

/-- For a quote that is not the first character of its line and is preceded by
exactly `k` backslashes, the positions that `redactLine` pairs contain the
quote exactly when `k` is even. -/
theorem filteredQuoteLocations_parity (pre post : List Char) (k : Nat)
    (hpre : ∀ c, pre.reverse.head? = some c → c ≠ '\\') (hpos : 1 ≤ pre.length + k) :
    ∃ kept, filteredQuoteLocations (pre ++ List.replicate k '\\' ++ '"' :: post) = some kept ∧
      (pre.length + k ∈ kept ↔ k % 2 = 0) := by
  refine ⟨_, filteredQuoteLocations_eq _, ?_⟩
  have hne : pre ++ List.replicate k '\\' ≠ [] := by
    intro h
    have := congrArg List.length h
    simp only [List.length_append, List.length_replicate, List.length_nil] at this
    omega
  obtain ⟨c0, rest, hsplit⟩ := List.exists_cons_of_ne_nil hne
  have hline : pre ++ List.replicate k '\\' ++ '"' :: post = c0 :: (rest ++ '"' :: post) := by
    rw [hsplit]; rfl
  have hlen : pre.length + k = rest.length + 1 := by
    have := congrArg List.length hsplit
    simpa using this
  have htb : refTrailingBackslashes (pre ++ List.replicate k '\\').reverse = k := by
    rw [List.reverse_append, List.reverse_replicate, refTrailingBackslashes_replicate]
    cases hr : pre.reverse with
    | nil => simp [refTrailingBackslashes]
    | cons c cs =>
      have := hpre c (by rw [hr]; rfl)
      rw [refTrailingBackslashes_cons, if_neg this]
      rfl
  have hget : ([c0].reverse ++ (rest ++ '"' :: post))[pre.length + k]? = some '"' := by
    rw [hlen]
    show (c0 :: (rest ++ '"' :: post))[rest.length + 1]? = some '"'
    rw [List.getElem?_cons_succ, List.getElem?_append_right (Nat.le_refl _)]
    simp
  have hmem := mem_refQuotePositions_iff (rest ++ '"' :: post) [c0] 1 (pre.length + k) rfl
    hpos hget
  have htake : ([c0].reverse ++ (rest ++ '"' :: post)).take (pre.length + k) =
      pre ++ List.replicate k '\\' := by
    rw [hsplit, hlen]
    simp
  rw [htake, htb] at hmem
  rw [hline]
  simpa using hmem

/-- C14: on the line `"abc"` the quote at position 0 is preceded by no
backslash and the filter callback classifies it as unescaped, but it is not
among the positions that are paired (only position 4 is): the scan never
finds a quote at position 0.  On the line `a\"b"` the classification by parity
works: position 2 (one backslash) is dropped, position 4 is kept. -/
theorem redactFirefoxStacktraceStrings_leading_quote_not_boundary :
    "\"abc\"".data[0]? = some '"' ∧
    backslashCount "\"abc\"".data 0 0 = 0 ∧
    quoteUnescaped "\"abc\"".data 0 = true ∧
    filteredQuoteLocations "\"abc\"".data = some [4] ∧
    filteredQuoteLocations "a\\\"b\"".data = some [4] ∧
    redactLine "\"abc\"".data = some "\"abc\"[string redacted]".data := by
  decide

/-! ### The replacement loop, pair by pair from the left -/

theorem replaceStep_eq (q : List Nat) (i : Nat) (line : List Char) :
    replaceStep q i line =
      line.take (q.getD (i - 1) 0 + 1) ++ (markerChars ++ line.drop (q.getD i 0)) := by
  simp [replaceStep, substr, substrFrom, redactString, markerChars]

theorem replaceLoop_congr (q q' : List Nat) :
    ∀ (n i : Nat) (line : List Char), i ≤ n → (∀ j, j ≤ i → q.getD j 0 = q'.getD j 0) →
      replaceLoop q i line = replaceLoop q' i line := by
  intro n
  induction n with
  | zero =>
    intro i line hi _
    have : i = 0 := by omega
    subst this
    rfl
  | succ n ih =>
    intro i line hi h
    match i with
    | 0 => rfl
    | 1 =>
      simp only [replaceLoop, replaceStep_eq]
      rw [h 0 (by omega), h 1 (by omega)]
    | i + 2 =>
      simp only [replaceLoop, replaceStep_eq]
      rw [h (i + 2 - 1) (by omega), h (i + 2) (by omega)]
      exact ih i _ (by omega) (fun j hj => h j (by omega))

theorem flattenPairs_append (p p' : List (Nat × Nat)) :
    flattenPairs (p ++ p') = flattenPairs p ++ flattenPairs p' := by
  induction p with
  | nil => rfl
  | cons x xs ih =>
    obtain ⟨a, b⟩ := x
    simp [flattenPairs, ih]

theorem flattenPairs_length (p : List (Nat × Nat)) : (flattenPairs p).length = 2 * p.length := by
  induction p with
  | nil => rfl
  | cons x xs ih =>
    obtain ⟨a, b⟩ := x
    simp [flattenPairs, ih]
    omega

theorem PairsOk_snoc :
    ∀ (p : List (Nat × Nat)) (off a b : Nat), PairsOk (p ++ [(a, b)]) off →
      PairsOk p off ∧ off ≤ a ∧ a < b ∧
        (∀ x ∈ p, x.1 < a ∧ x.2 ≤ a) := by
  intro p
  induction p with
  | nil =>
    intro off a b h
    exact ⟨trivial, h.1, h.2.1, by simp⟩
  | cons x xs ih =>
    intro off a b h
    obtain ⟨a1, b1⟩ := x
    have h' : off ≤ a1 ∧ a1 < b1 ∧ PairsOk (xs ++ [(a, b)]) b1 := h
    obtain ⟨hok, hle, hlt, hall⟩ := ih b1 a b h'.2.2
    refine ⟨⟨h'.1, h'.2.1, hok⟩, by omega, hlt, ?_⟩
    intro y hy
    rcases List.mem_cons.mp hy with hy | hy
    · subst hy
      exact ⟨by simp; omega, by simpa using hle⟩
    · exact hall y hy

theorem renderPairs_snoc :
    ∀ (p : List (Nat × Nat)) (l : List Char) (off a b : Nat), PairsOk (p ++ [(a, b)]) off →
      a < off + l.length →
      renderPairs (p ++ [(a, b)]) l off =
        renderPairs p (l.take (a + 1 - off) ++ (markerChars ++ l.drop (b - off))) off := by
  intro p
  induction p with
  | nil => intro l off a b _ _; rfl
  | cons x xs ih =>
    intro l off a b hok ha
    obtain ⟨a1, b1⟩ := x
    have hok' : off ≤ a1 ∧ a1 < b1 ∧ PairsOk (xs ++ [(a, b)]) b1 := hok
    obtain ⟨_, hb1a, hab, _⟩ := PairsOk_snoc xs b1 a b hok'.2.2
    have hrec := ih (l.drop (b1 - off)) b1 a b hok'.2.2 (by simp; omega)
    show renderPairs ((a1, b1) :: (xs ++ [(a, b)])) l off = renderPairs ((a1, b1) :: xs) _ off
    simp only [renderPairs]
    rw [hrec]
    have hlen : (l.take (a + 1 - off)).length = a + 1 - off := by
      rw [List.length_take]; omega
    have e1 : (l.take (a + 1 - off) ++ (markerChars ++ l.drop (b - off))).take (a1 + 1 - off) =
        l.take (a1 + 1 - off) := by
      rw [List.take_append_of_le_length (by omega), List.take_take]
      congr 1
      omega
    have e2 : (l.take (a + 1 - off) ++ (markerChars ++ l.drop (b - off))).drop (b1 - off) =
        (l.drop (b1 - off)).take (a + 1 - b1) ++
          (markerChars ++ (l.drop (b1 - off)).drop (b - b1)) := by
      rw [List.drop_append_of_le_length (by omega), List.drop_take, List.drop_drop]
      have : a + 1 - off - (b1 - off) = a + 1 - b1 := by omega
      rw [this]
      have : b1 - off + (b - b1) = b - off := by omega
      rw [this]
    rw [e1, e2]

theorem replaceLoop_eq_renderPairs :
    ∀ (p : List (Nat × Nat)) (line : List Char), PairsOk p 0 →
      (∀ x ∈ p, x.1 < line.length) →
      replaceLoop (flattenPairs p) ((flattenPairs p).length - 1) line = renderPairs p line 0 := by
  intro p
  induction p using List.reverseRecOn with
  | nil => intro line _ _; rfl
  | append_singleton p x ih =>
    intro line hok hbound
    obtain ⟨a, b⟩ := x
    obtain ⟨hokp, _, hab, hall⟩ := PairsOk_snoc p 0 a b hok
    have ha : a < line.length := hbound (a, b) (by simp)
    rw [renderPairs_snoc p line 0 a b hok (by omega)]
    have hflat : flattenPairs (p ++ [(a, b)]) = flattenPairs p ++ [a, b] := by
      rw [flattenPairs_append]; rfl
    have hlenp := flattenPairs_length p
    have hga : (flattenPairs p ++ [a, b]).getD (flattenPairs p).length 0 = a := by
      rw [List.getD_eq_getElem?_getD, List.getElem?_append_right (Nat.le_refl _)]
      simp
    have hgb : (flattenPairs p ++ [a, b]).getD ((flattenPairs p).length + 1) 0 = b := by
      rw [List.getD_eq_getElem?_getD, List.getElem?_append_right (by omega)]
      simp
    rw [hflat]
    have hX : (line.take (a + 1) ++ (markerChars ++ line.drop b)).length ≥ a + 1 := by
      simp [List.length_take]
      omega
    have hih := ih (line.take (a + 1 - 0) ++ (markerChars ++ line.drop (b - 0))) hokp
      (by
        intro y hy
        have := (hall y hy).1
        simp only [Nat.sub_zero]
        omega)
    by_cases hp : p = []
    · subst hp
      simp [flattenPairs, replaceLoop, replaceStep_eq, renderPairs]
    · have hpl : 1 ≤ p.length := List.length_pos.mpr hp
      have hlen2 : (flattenPairs p ++ [a, b]).length - 1 =
          ((flattenPairs p).length - 1) + 2 := by
        simp only [List.length_append, List.length_cons, List.length_nil]
        omega
      rw [hlen2]
      simp only [replaceLoop, replaceStep_eq]
      have hi1 : (flattenPairs p).length - 1 + 2 - 1 = (flattenPairs p).length := by omega
      have hi2 : (flattenPairs p).length - 1 + 2 = (flattenPairs p).length + 1 := by omega
      rw [hi1, hi2, hga, hgb]
      rw [replaceLoop_congr (flattenPairs p ++ [a, b]) (flattenPairs p)
        ((flattenPairs p).length - 1) ((flattenPairs p).length - 1) _ (Nat.le_refl _)
        (by
          intro j hj
          rw [List.getD_eq_getElem?_getD, List.getD_eq_getElem?_getD,
            List.getElem?_append_left (by omega)])]
      simpa using hih

/-! ### The replacement loop as one pass over the line -/

theorem refQuotePositions_sorted :
    ∀ (l before : List Char) (pos : Nat),
      (refQuotePositions l before pos).Pairwise (fun a b => a < b) := by
  intro l
  induction l with
  | nil => intro before pos; simp [refQuotePositions]
  | cons x xs ih =>
    intro before pos
    simp only [refQuotePositions]
    split
    · rw [List.pairwise_cons]
      refine ⟨?_, ih _ _⟩
      intro q hq
      have := refQuotePositions_ge _ _ _ _ hq
      omega
    · exact ih _ _

theorem refPairs_cons (eol a : Nat) (k : List Nat) :
    refPairs eol (a :: k) = (a, headOr eol k) :: refPairs eol k.tail := by
  cases k with
  | nil => rfl
  | cons b rest => rfl

theorem PairsOk_refPairs (eol : Nat) :
    ∀ (n : Nat) (k : List Nat) (off : Nat), k.length ≤ n →
      k.Pairwise (fun a b => a < b) → (∀ q ∈ k, off ≤ q ∧ q < eol) →
      PairsOk (refPairs eol k) off ∧ ∀ x ∈ refPairs eol k, x.1 < eol := by
  intro n
  induction n with
  | zero =>
    intro k off hlen _ _
    have : k = [] := List.length_eq_zero.mp (by omega)
    subst this
    exact ⟨trivial, by simp [refPairs]⟩
  | succ n ih =>
    intro k off hlen hsorted hbound
    match k with
    | [] => exact ⟨trivial, by simp [refPairs]⟩
    | [a] =>
      have := hbound a (by simp)
      exact ⟨⟨this.1, this.2, trivial⟩, by simp [refPairs]; omega⟩
    | a :: b :: rest =>
      have ha := hbound a (by simp)
      have hb := hbound b (by simp)
      have hab : a < b := (List.pairwise_cons.mp hsorted).1 b (by simp)
      have hs2 := (List.pairwise_cons.mp (List.pairwise_cons.mp hsorted).2)
      obtain ⟨hok, hlt⟩ := ih rest b (by simp at hlen; omega) hs2.2
        (fun q hq => ⟨by have := hs2.1 q hq; omega, (hbound q (by simp [hq])).2⟩)
      refine ⟨⟨ha.1, hab, hok⟩, ?_⟩
      intro x hx
      simp only [refPairs, List.mem_cons] at hx
      rcases hx with hx | hx
      · subst hx; exact ha.2
      · exact hlt x hx

theorem PairsOk_weaken : ∀ (p : List (Nat × Nat)) (off off' : Nat), off' ≤ off →
    PairsOk p off → PairsOk p off' := by
  intro p off off' hle h
  match p with
  | [] => trivial
  | (a, b) :: ps => exact ⟨by have := h.1; omega, h.2.1, h.2.2⟩

theorem renderPairs_shift (p : List (Nat × Nat)) (c : Char) (cs : List Char) (off : Nat)
    (hok : PairsOk p (off + 1)) :
    renderPairs p (c :: cs) off = c :: renderPairs p cs (off + 1) := by
  match p with
  | [] => rfl
  | (a, b) :: ps =>
    have h1 : off + 1 ≤ a := hok.1
    have h2 : a < b := hok.2.1
    simp only [renderPairs]
    have e1 : a + 1 - off = (a + 1 - (off + 1)) + 1 := by omega
    have e2 : b - off = (b - (off + 1)) + 1 := by omega
    rw [e1, e2, List.take_succ_cons, List.drop_succ_cons]
    rfl

theorem headOr_bounds (eol off : Nat) (k : List Nat) (h : ∀ q ∈ k, off ≤ q ∧ q < eol)
    (hoff : off ≤ eol) : off ≤ headOr eol k ∧ headOr eol k ≤ eol := by
  cases k with
  | nil => exact ⟨hoff, Nat.le_refl _⟩
  | cons b rest =>
    have := h b (by simp)
    exact ⟨this.1, by simp [headOr]; omega⟩

theorem renderPairs_eq_walkFrom :
    ∀ (l before : List Char) (off eol : Nat), eol = off + l.length →
      renderPairs (refPairs eol (refQuotePositions l before off)) l off =
        walkFrom false (refTrailingBackslashes before) l ∧
      renderPairs (refPairs eol (refQuotePositions l before off).tail)
          (l.drop (headOr eol (refQuotePositions l before off) - off))
          (headOr eol (refQuotePositions l before off)) =
        walkFrom true (refTrailingBackslashes before) l := by
  intro l
  induction l with
  | nil =>
    intro before off eol _
    exact ⟨rfl, by simp [refQuotePositions, refPairs, renderPairs, walkFrom]⟩
  | cons c cs ih =>
    intro before off eol heol
    have heol' : eol = off + 1 + cs.length := by simp at heol; omega
    obtain ⟨ihout, ihin⟩ := ih (c :: before) (off + 1) eol heol'
    have hbound : ∀ q ∈ refQuotePositions cs (c :: before) (off + 1), off + 1 ≤ q ∧ q < eol :=
      fun q hq => ⟨refQuotePositions_ge _ _ _ _ hq,
        by have := refQuotePositions_lt _ _ _ _ hq; omega⟩
    have hok : PairsOk (refPairs eol (refQuotePositions cs (c :: before) (off + 1))) (off + 1) :=
      (PairsOk_refPairs eol _ _ _ (Nat.le_refl _) (refQuotePositions_sorted _ _ _) hbound).1
    have hhead := headOr_bounds eol (off + 1) _ hbound (by omega)
    by_cases hcond : (c == '"' && refTrailingBackslashes before % 2 == 0) = true
    · have hc : c = '"' := by
        have := (Bool.and_eq_true _ _).mp hcond
        simpa using this.1
      have htb : refTrailingBackslashes (c :: before) = 0 := by
        rw [refTrailingBackslashes_cons, if_neg (by rw [hc]; decide)]
      rw [htb] at ihout ihin
      have hq : refQuotePositions (c :: cs) before off =
          off :: refQuotePositions cs (c :: before) (off + 1) := by
        simp only [refQuotePositions, hcond, if_true]
      rw [hq]
      constructor
      · rw [refPairs_cons]
        simp only [renderPairs, walkFrom, hcond, if_true]
        have e1 : off + 1 - off = 1 := by omega
        have e2 : headOr eol (refQuotePositions cs (c :: before) (off + 1)) - off =
            (headOr eol (refQuotePositions cs (c :: before) (off + 1)) - (off + 1)) + 1 := by
          omega
        rw [e1, e2, List.drop_succ_cons, ihin]
        rfl
      · simp only [headOr, List.tail_cons, Nat.sub_self, List.drop_zero, walkFrom, hcond,
          if_true]
        rw [renderPairs_shift _ _ _ _ hok, ihout]
    · have hq : refQuotePositions (c :: cs) before off =
          refQuotePositions cs (c :: before) (off + 1) := by
        simp only [refQuotePositions, hcond, if_false, Bool.false_eq_true]
      have htb : refTrailingBackslashes (c :: before) =
          if c = '\\' then refTrailingBackslashes before + 1 else 0 :=
        refTrailingBackslashes_cons c before
      rw [hq]
      constructor
      · rw [renderPairs_shift _ _ _ _ hok, ihout, htb]
        simp only [walkFrom, hcond, if_false, Bool.false_eq_true]
      · have e2 : headOr eol (refQuotePositions cs (c :: before) (off + 1)) - off =
            (headOr eol (refQuotePositions cs (c :: before) (off + 1)) - (off + 1)) + 1 := by
          omega
        rw [e2, List.drop_succ_cons, ihin, htb]
        simp only [walkFrom, hcond, if_false, Bool.false_eq_true]

theorem flattenPairs_refPairs (eol : Nat) :
    ∀ (n : Nat) (k : List Nat), k.length ≤ n →
      flattenPairs (refPairs eol k) = if k.length % 2 == 1 then k ++ [eol] else k := by
  intro n
  induction n with
  | zero =>
    intro k hlen
    have : k = [] := List.length_eq_zero.mp (by omega)
    subst this
    rfl
  | succ n ih =>
    intro k hlen
    match k with
    | [] => rfl
    | [a] => rfl
    | a :: b :: rest =>
      have hrec := ih rest (by simp at hlen; omega)
      have hpar : (a :: b :: rest).length % 2 = rest.length % 2 := by
        simp only [List.length_cons]
        omega
      simp only [refPairs, flattenPairs, hrec, hpar]
      split <;> rfl

/-- The result of `redactLine` is the result of one pass over the line. -/
theorem redactLine_eq_walkLine (line : List Char) : redactLine line = some (walkLine line) := by
  have hf := filteredQuoteLocations_eq line
  unfold filteredQuoteLocations at hf
  unfold redactLine
  cases hscan : quoteScan line (line.length + 1) 0 [] with
  | none => rw [hscan] at hf; cases hf
  | some found =>
    rw [hscan] at hf
    simp only [Option.map_some', Option.some.injEq] at hf
    simp only [hf]
    cases line with
    | nil => rfl
    | cons c cs =>
      have hbound : ∀ q ∈ refQuotePositions cs [c] 1, 1 ≤ q ∧ q < (c :: cs).length :=
        fun q hq => ⟨refQuotePositions_ge _ _ _ _ hq,
          by have := refQuotePositions_lt _ _ _ _ hq; simp; omega⟩
      obtain ⟨hok, hlt⟩ := PairsOk_refPairs (c :: cs).length _ (refQuotePositions cs [c] 1) 1
        (Nat.le_refl _) (refQuotePositions_sorted _ _ _) hbound
      have hflat := flattenPairs_refPairs (c :: cs).length _ (refQuotePositions cs [c] 1)
        (Nat.le_refl _)
      have hdrop : (c :: cs).drop 1 = cs := rfl
      have htake : ((c :: cs).take 1).reverse = [c] := rfl
      rw [hdrop, htake, ← hflat,
        replaceLoop_eq_renderPairs _ (c :: cs) (PairsOk_weaken _ 1 0 (by omega) hok) hlt,
        renderPairs_shift _ c cs 0 hok,
        (renderPairs_eq_walkFrom cs [c] 1 (c :: cs).length (by simp; omega)).1,
        refTrailingBackslashes_cons]
      rfl

/-! ### Idempotence of the one-pass description -/

theorem walkFrom_true_shape :
    ∀ (cs : List Char) (bs : Nat), walkFrom true bs cs = [] ∨
      ∃ cs', walkFrom true bs cs = '"' :: walkFrom false 0 cs' ∧ cs'.length < cs.length := by
  intro cs
  induction cs with
  | nil => intro bs; exact Or.inl rfl
  | cons c rest ih =>
    intro bs
    by_cases hcond : (c == '"' && bs % 2 == 0) = true
    · have hc : c = '"' := by
        have := (Bool.and_eq_true _ _).mp hcond
        simpa using this.1
      right
      refine ⟨rest, ?_, by simp⟩
      simp only [walkFrom, hcond, if_true]
      rw [hc]
    · simp only [walkFrom, hcond, if_false, Bool.false_eq_true]
      rcases ih (if c = '\\' then bs + 1 else 0) with h | ⟨cs', h, hlt⟩
      · exact Or.inl h
      · exact Or.inr ⟨cs', h, by simp; omega⟩

theorem walkFrom_true_plain (m rest : List Char)
    (hm : ∀ c ∈ m, c ≠ '"' ∧ c ≠ '\\') :
    ∀ bs, walkFrom true bs (m ++ rest) = walkFrom true (if m = [] then bs else 0) rest := by
  induction m with
  | nil => intro bs; rfl
  | cons c cs ih =>
    intro bs
    have hc := hm c (by simp)
    have hcond : (c == '"' && bs % 2 == 0) = false := by simp [hc.1]
    have hstep : walkFrom true bs (c :: (cs ++ rest)) = walkFrom true 0 (cs ++ rest) := by
      simp only [walkFrom, hcond, if_false, Bool.false_eq_true, if_neg hc.2]
    rw [List.cons_append, hstep, ih (fun x hx => hm x (by simp [hx]))]
    by_cases hcs : cs = [] <;> simp [hcs]

theorem walkFrom_true_marker (rest : List Char) :
    walkFrom true 0 (markerChars ++ rest) = walkFrom true 0 rest := by
  rw [walkFrom_true_plain markerChars rest (by decide)]
  rfl

theorem walkFrom_false_idem :
    ∀ (n : Nat) (l : List Char) (bs : Nat), l.length ≤ n →
      walkFrom false bs (walkFrom false bs l) = walkFrom false bs l := by
  intro n
  induction n with
  | zero =>
    intro l bs hlen
    have : l = [] := List.length_eq_zero.mp (by omega)
    subst this
    rfl
  | succ n ih =>
    intro l bs hlen
    match l with
    | [] => rfl
    | c :: cs =>
      have hcs : cs.length ≤ n := by simp at hlen; omega
      by_cases hcond : (c == '"' && bs % 2 == 0) = true
      · have hopen : ∀ rest : List Char,
            walkFrom false bs (c :: rest) = c :: (markerChars ++ walkFrom true 0 rest) := by
          intro rest
          simp only [walkFrom, hcond, if_true]
        have hinner : walkFrom true 0 (walkFrom true 0 cs) = walkFrom true 0 cs := by
          rcases walkFrom_true_shape cs 0 with h | ⟨cs', h, hlt⟩
          · rw [h]
            simp only [walkFrom]
          · have hclose : ∀ rest : List Char,
                walkFrom true 0 ('"' :: rest) = '"' :: walkFrom false 0 rest := by
              intro rest
              simp only [walkFrom]
              rfl
            rw [h, hclose, ih cs' 0 (by omega)]
        rw [hopen, hopen, walkFrom_true_marker, hinner]
      · have hkeep : ∀ rest : List Char,
            walkFrom false bs (c :: rest) =
              c :: walkFrom false (if c = '\\' then bs + 1 else 0) rest := by
          intro rest
          simp only [walkFrom, hcond, if_false, Bool.false_eq_true]
        rw [hkeep, hkeep, ih cs _ hcs]

theorem walkLine_idem (l : List Char) : walkLine (walkLine l) = walkLine l := by
  cases l with
  | nil => rfl
  | cons c cs =>
    simp only [walkLine]
    rw [walkFrom_false_idem cs.length cs _ (Nat.le_refl _)]

/-! ### Lines -/

theorem splitLines_ne_nil : ∀ t : List Char, splitLines t ≠ [] := by
  intro t
  induction t with
  | nil => simp [splitLines]
  | cons c cs ih =>
    simp only [splitLines]
    split
    · simp
    · split <;> simp

theorem splitLines_no_newline : ∀ (t l : List Char), l ∈ splitLines t → '\n' ∉ l := by
  intro t
  induction t with
  | nil =>
    intro l hl
    simp [splitLines] at hl
    subst hl
    simp
  | cons c cs ih =>
    intro l hl
    simp only [splitLines] at hl
    by_cases hc : (c == '\n') = true
    · simp only [hc, if_true, List.mem_cons] at hl
      rcases hl with hl | hl
      · subst hl; simp
      · exact ih l hl
    · simp only [hc, if_false, Bool.false_eq_true] at hl
      have hne : c ≠ '\n' := by simpa using hc
      cases hs : splitLines cs with
      | nil => exact absurd hs (splitLines_ne_nil cs)
      | cons l0 ls =>
        rw [hs] at hl
        simp only [List.mem_cons] at hl
        rcases hl with hl | hl
        · subst hl
          have := ih l0 (by rw [hs]; simp)
          simp only [List.mem_cons, not_or]
          exact ⟨fun h => hne h.symm, this⟩
        · exact ih l (by rw [hs]; simp [hl])

theorem splitLines_append_newline :
    ∀ (l rest : List Char), '\n' ∉ l →
      splitLines (l ++ '\n' :: rest) = l :: splitLines rest := by
  intro l
  induction l with
  | nil => intro rest _; simp [splitLines]
  | cons c cs ih =>
    intro rest hl
    have hc : (c == '\n') = false := by
      have : c ≠ '\n' := fun h => hl (by simp [h])
      simpa using this
    have hcs : '\n' ∉ cs := fun h => hl (by simp [h])
    show splitLines (c :: (cs ++ '\n' :: rest)) = _
    simp only [splitLines, hc, if_false, Bool.false_eq_true]
    rw [ih rest hcs]

theorem splitLines_of_no_newline : ∀ l : List Char, '\n' ∉ l → splitLines l = [l] := by
  intro l
  induction l with
  | nil => intro _; rfl
  | cons c cs ih =>
    intro hl
    have hc : (c == '\n') = false := by
      have : c ≠ '\n' := fun h => hl (by simp [h])
      simpa using this
    have hcs : '\n' ∉ cs := fun h => hl (by simp [h])
    simp only [splitLines, hc, if_false, Bool.false_eq_true, ih hcs]

theorem splitLines_joinLines :
    ∀ lines : List (List Char), lines ≠ [] → (∀ l ∈ lines, '\n' ∉ l) →
      splitLines (joinLines lines) = lines := by
  intro lines
  induction lines with
  | nil => intro h _; exact absurd rfl h
  | cons l ls ih =>
    intro _ hall
    cases ls with
    | nil => exact splitLines_of_no_newline l (hall l (by simp))
    | cons l' rest =>
      simp only [joinLines]
      rw [splitLines_append_newline l _ (hall l (by simp)),
        ih (by simp) (fun x hx => hall x (by simp [hx]))]

theorem walkFrom_mem :
    ∀ (l : List Char) (inside : Bool) (bs : Nat) (x : Char), x ∈ walkFrom inside bs l →
      x ∈ l ∨ x ∈ markerChars := by
  intro l
  induction l with
  | nil => intro inside bs x h; cases inside <;> simp [walkFrom] at h
  | cons c cs ih =>
    intro inside bs x h
    cases inside with
    | false =>
      simp only [walkFrom] at h
      split at h
      · simp only [List.mem_cons, List.mem_append] at h
        rcases h with h | h | h
        · exact Or.inl (by simp [h])
        · exact Or.inr h
        · rcases ih _ _ _ h with h | h
          · exact Or.inl (by simp [h])
          · exact Or.inr h
      · simp only [List.mem_cons] at h
        rcases h with h | h
        · exact Or.inl (by simp [h])
        · rcases ih _ _ _ h with h | h
          · exact Or.inl (by simp [h])
          · exact Or.inr h
    | true =>
      simp only [walkFrom] at h
      split at h
      · simp only [List.mem_cons] at h
        rcases h with h | h
        · exact Or.inl (by simp [h])
        · rcases ih _ _ _ h with h | h
          · exact Or.inl (by simp [h])
          · exact Or.inr h
      · rcases ih _ _ _ h with h | h
        · exact Or.inl (by simp [h])
        · exact Or.inr h

theorem walkLine_no_newline (l : List Char) (h : '\n' ∉ l) : '\n' ∉ walkLine l := by
  cases l with
  | nil => simp [walkLine]
  | cons c cs =>
    intro hmem
    simp only [walkLine, List.mem_cons] at hmem
    rcases hmem with hmem | hmem
    · exact h (List.mem_cons.mpr (Or.inl hmem))
    · rcases walkFrom_mem _ _ _ _ hmem with h2 | h2
      · exact h (by simp [h2])
      · revert h2
        decide

theorem redactLines_eq_map : ∀ lines : List (List Char),
    redactLines lines = some (lines.map walkLine) := by
  intro lines
  induction lines with
  | nil => rfl
  | cons l ls ih => simp [redactLines, redactLine_eq_walkLine, ih]

/-- The result of `redactFirefoxStacktraceStrings`: the text itself when it has
no double quote, otherwise its lines rewritten by one pass each. -/
theorem redactFirefoxStacktraceStrings_eq (stacktraceStr : String) :
    redactFirefoxStacktraceStrings stacktraceStr =
      some (if stacktraceStr.data.contains '"' then
        String.mk (joinLines ((splitLines stacktraceStr.data).map walkLine))
      else stacktraceStr) := by
  unfold redactFirefoxStacktraceStrings
  cases hq : stacktraceStr.data.contains '"' with
  | true =>
    simp only [Bool.not_true, Bool.false_eq_true, if_false, if_true]
    rw [redactLines_eq_map]
    rfl
  | false =>
    simp only [Bool.not_false, if_true, Bool.false_eq_true, if_false]

/-- C15: `redactFirefoxStacktraceStrings` returns a text for every stack text,
applying it to its own result gives that result again, and the result has as
many lines as the input. -/
theorem redactFirefoxStacktraceStrings_idempotent (stacktraceStr : String) :
    ∃ r : String,
      redactFirefoxStacktraceStrings stacktraceStr = some r ∧
      redactFirefoxStacktraceStrings r = some r ∧
      (splitLines r.data).length = (splitLines stacktraceStr.data).length := by
  have hsplit : splitLines (joinLines ((splitLines stacktraceStr.data).map walkLine)) =
      (splitLines stacktraceStr.data).map walkLine := by
    apply splitLines_joinLines
    · intro h
      exact splitLines_ne_nil stacktraceStr.data (List.map_eq_nil_iff.mp h)
    · intro l hl
      obtain ⟨l0, hl0, rfl⟩ := List.mem_map.mp hl
      exact walkLine_no_newline l0 (splitLines_no_newline _ _ hl0)
  by_cases h : stacktraceStr.data.contains '"' = true
  · refine ⟨String.mk (joinLines ((splitLines stacktraceStr.data).map walkLine)), ?_, ?_, ?_⟩
    · rw [redactFirefoxStacktraceStrings_eq, if_pos h]
    · rw [redactFirefoxStacktraceStrings_eq]
      by_cases h2 : (String.mk (joinLines
          ((splitLines stacktraceStr.data).map walkLine))).data.contains '"' = true
      · rw [if_pos h2]
        simp only [hsplit, List.map_map]
        have : (walkLine ∘ walkLine) = walkLine := by
          funext l
          exact walkLine_idem l
        rw [this]
      · rw [if_neg h2]
    · simp only [hsplit, List.length_map]
  · refine ⟨stacktraceStr, ?_, ?_, rfl⟩
    · rw [redactFirefoxStacktraceStrings_eq, if_neg h]
    · rw [redactFirefoxStacktraceStrings_eq, if_neg h]

end ErrorCatcher
